import Mathlib

/-!
Verification of the nw-tex binary format engine against its specification.

This development shallowly embeds the core of the nw-tex repository
(src/util/blz.rs, src/bcres/bcres.rs, src/bcres/image_codec.rs and
src/util/pointer.rs) into Lean and proves, or refutes, the specified
properties of those functions.

Modelling conventions:
* Byte buffers are lists of natural numbers; a well-formed buffer has all
  entries below 256 (stated as hypotheses where a theorem depends on it).
* Rust integer arithmetic that can overflow uses checked helpers
  (u32add, u32sub, ...): Rust defines overflow as a program error (panic
  under debug assertions), so an overflowing operation is modelled as a
  failure.  Lossy `as` casts, which always wrap in Rust, are modelled by
  explicit masking.
* Panics (failed asserts, out-of-range indexing, todo!) and returned
  errors are both modelled as Except.error; the specification calls both
  a hard failure.
-/

set_option maxHeartbeats 1000000
set_option maxRecDepth 100000

namespace NwTex

/-- Largest value of a Rust u32. -/
def u32Max : Nat := 4294967295

/-- Checked u32 addition: overflow is a Rust panic, modelled as failure. -/
def u32add (a b : Nat) : Except String Nat :=
  if a + b ≤ u32Max then .ok (a + b) else .error "attempt to add with overflow"

/-- Checked u32 (and usize) subtraction: underflow is a Rust panic. -/
def u32sub (a b : Nat) : Except String Nat :=
  if b ≤ a then .ok (a - b) else .error "attempt to subtract with overflow"

/-- Checked u8 conversion, modelling u8::try_from(..).unwrap(). -/
def u8try (a : Nat) : Except String Nat :=
  if a ≤ 255 then .ok a else .error "u8 conversion failed"

/-- The little-endian u32 stored at positions p..p+3 of a buffer
(0-padded out of range; callers stay in range). -/
def readU32At (buf : List Nat) (p : Nat) : Nat :=
  buf.getD p 0 + buf.getD (p + 1) 0 * 256 + buf.getD (p + 2) 0 * 65536 +
    buf.getD (p + 3) 0 * 16777216

/-- Little-endian byte encoding of a u32 value. -/
def u32Bytes (v : Nat) : List Nat :=
  [v % 256, v / 256 % 256, v / 65536 % 256, v / 16777216 % 256]

/-- Little-endian byte encoding of a u16 value. -/
def u16Bytes (v : Nat) : List Nat :=
  [v % 256, v / 256 % 256]

/-!
## The BLZ compression codec, from src/util/blz.rs

blz_decode (lines 36-134) and blz_encode (lines 138-245) with the helper
search (lines 253-284).  Buffers are lists of bytes; the Cursor over the
encoded buffer is an explicit position.
-/

/-- One back-reference copy of blz_decode (the inner for-loop, blz.rs lines
123-125): len times, push the byte found pos places before the current end
of the output.  Indexing out of range (pos = 0 or pos greater than the
output length, a usize underflow or slice panic in Rust) gives none. -/
def lzCopy (out : List Nat) (pos : Nat) : Nat → Option (List Nat)
  | 0 => some out
  | n + 1 =>
    if 0 < pos ∧ pos ≤ out.length then
      lzCopy (out ++ [out.getD (out.length - pos) 0]) pos n
    else
      none

/-- Final length assertion of blz_decode (blz.rs line 129), reached when the
while loop ends (guard exhausted or break). -/
def blzDecodeFinish (resultSize : Nat) (out : List Nat) : Except String (List Nat) :=
  if out.length = resultSize then .ok out
  else .error "Decompressed byte length doesn't match expected length"

/-- The decoding while loop of blz_decode (blz.rs lines 90-127), followed by
the length assertion.  State: the shifting bit mask, the current flag byte,
the read position in the reversed encoded buffer, and the output built so
far.  A Rust break leads to blzDecodeFinish.  The loop terminates because
every iteration lengthens the output; the structural fuel argument, always
called with more fuel than bytes left to produce, only makes that measure
explicit (blzDecodeLoop_fuel below shows the fuel branch is unreachable). -/
def blzDecodeLoop (enc : List Nat) (resultSize : Nat) :
    Nat → Nat → Nat → Nat → List Nat → Except String (List Nat)
  | 0, _, _, _, _ => .error "unreachable: decode loop out of fuel"
  | fuel + 1, mask, flags, encPos, out =>
    if out.length < resultSize then
      let m0 := mask >>> 1
      let next : Option (Nat × Nat × Nat) :=
        if m0 = 0 then
          if encPos = enc.length then none
          else some (128, enc.getD encPos 0, encPos + 1)
        else some (m0, flags, encPos)
      match next with
      | none => blzDecodeFinish resultSize out
      | some (m, f, ep) =>
        if f &&& m = 0 then
          if ep = enc.length then blzDecodeFinish resultSize out
          else blzDecodeLoop enc resultSize fuel m f (ep + 1) (out ++ [enc.getD ep 0])
        else
          if ep + 1 = enc.length then blzDecodeFinish resultSize out
          else if ep + 1 < enc.length then
            let raw := (enc.getD ep 0 <<< 8) ||| enc.getD (ep + 1) 0
            let len := (raw >>> 12) + 3
            if out.length + len > resultSize then .error "Wrong decoded length"
            else
              match lzCopy out ((raw &&& 4095) + 3) len with
              | some out2 => blzDecodeLoop enc resultSize fuel m f (ep + 2) out2
              | none => .error "index out of bounds"
          else .error "failed to fill whole buffer"
    else blzDecodeFinish resultSize out

/-- blz_decode (blz.rs lines 36-134). -/
def blzDecode (input : List Nat) : Except String (List Nat) :=
  if input.length % 4 ≠ 0 then
    .error "Input buffer has an invalid length (must be multiple of 4)"
  else if input.length < 8 then
    .error "Input buffer is too small to be a valid Bottom LZ file"
  else
    let resultSizeIncrease := readU32At input (input.length - 4)
    if resultSizeIncrease = 0 then .error "Not coded file" else
    let headerLength := input.getD (input.length - 5) 0
    -- the assert on line 58 is kept verbatim: 8 <= h || h <= 11
    if ¬ (8 ≤ headerLength ∨ headerLength ≤ 11) then .error "Invalid header length" else
    if ¬ (headerLength < input.length) then .error "Invalid header length" else
    (do
      let encodedRaw := readU32At input (input.length - 8) &&& 16777215
      let unencodedLength ← u32sub input.length encodedRaw
      let encodedLength ← u32sub encodedRaw headerLength
      let resultSize ← u32add input.length resultSizeIncrease
      if resultSize > 16777215 then .error "Resulting file too large" else do
      let enc := ((input.drop unencodedLength).take encodedLength).reverse
      let out ← blzDecodeLoop enc resultSize (resultSize + 1) 0 0 0
        (input.take unencodedLength)
      pure (out.take unencodedLength ++ (out.drop unencodedLength).reverse))

/-- Match length at distance curPos in the encoder search (blz.rs lines
262-271): the first length in [0, 0x12) at which extending would cross a
boundary or diverge, 0x12 when none does. -/
def blzMatchLength (rev : List Nat) (inputPos curPos : Nat) : Nat :=
  match (List.range 18).find? (fun cl =>
      decide (inputPos + cl = rev.length ∨ curPos ≤ cl ∨
        rev.getD (inputPos + cl) 0 ≠ rev.getD (inputPos + cl - curPos) 0)) with
  | some cl => cl
  | none => 18

/-- The candidate scan of search (blz.rs lines 261-281): better matches
replace the accumulator; a maximal match (0x12) stops the scan early. -/
def blzSearchLoop (rev : List Nat) (inputPos : Nat) :
    List Nat → Nat × Option Nat → Nat × Option Nat
  | [], acc => acc
  | c :: rest, (lenR, posR) =>
    let l := blzMatchLength rev inputPos c
    if lenR < l then
      if l = 18 then (l, some c)
      else blzSearchLoop rev inputPos rest (l, some c)
    else blzSearchLoop rev inputPos rest (lenR, posR)

/-- search (blz.rs lines 253-284): scan distances 3..=min(inputPos, 0x1002),
starting from length BLZ_THRESHOLD = 2 and the previous position result. -/
def blzSearch (rev : List Nat) (inputPos : Nat) (prevPos : Option Nat) :
    Nat × Option Nat :=
  let mx := Nat.min inputPos 4098
  blzSearchLoop rev inputPos ((List.range (mx - 2)).map (· + 3)) (2, prevPos)

/-- Loop state of blz_encode: output so far, index of the current flag
byte, shifting mask, and the running best split approximation
(input_bytes_left, result_bytes_written), plus position_best. -/
structure BlzEncState where
  result : List Nat
  flagIndex : Nat
  mask : Nat
  ibl : Nat
  rbw : Nat
  posBest : Option Nat
  deriving Repr, DecidableEq

/-- The encoding while loop of blz_encode (blz.rs lines 158-202) over the
reversed input, from read position pos.  Each iteration advances the read
position, so fuel larger than the bytes left to read is never exhausted. -/
def blzEncodeLoop (rev : List Nat) :
    Nat → Nat → BlzEncState → Except String BlzEncState
  | 0, _, _ => .error "unreachable: encode loop out of fuel"
  | fuel + 1, pos, st =>
    if pos < rev.length then
    let part1 : Nat × List Nat × Nat :=
      if st.mask >>> 1 = 0 then (st.result.length, st.result ++ [0], 128)
      else (st.flagIndex, st.result, st.mask >>> 1)
    match part1 with
    | (fi, res1, m) =>
      let sr := blzSearch rev pos st.posBest
      let res2 := res1.set fi ((res1.getD fi 0 <<< 1) &&& 255)
      let posNew := if 2 < sr.1 then pos + sr.1 else pos + 1
      let resNew : Except String (List Nat) :=
        if 2 < sr.1 then
          match sr.2 with
          | none => .error "called Option::unwrap() on a None value"
          | some pb =>
            (u32sub pb 3).bind (fun d =>
              (u8try (((sr.1 - 3) <<< 4) ||| (d >>> 8))).bind (fun b1 =>
                (u8try (d &&& 255)).map (fun b2 =>
                  res2.set fi (res2.getD fi 0 ||| 1) ++ [b1, b2])))
        else
          .ok (res2 ++ [rev.getD pos 0])
      match resNew with
      | .error e => .error e
      | .ok res3 =>
        let newApprox := res3.length + (rev.length - posNew)
        let best : Nat × Nat :=
          if newApprox < st.ibl + st.rbw then (rev.length - posNew, res3.length)
          else (st.ibl, st.rbw)
        blzEncodeLoop rev fuel posNew
          { result := res3, flagIndex := fi, mask := m,
            ibl := best.1, rbw := best.2, posBest := sr.2 }
    else pure st

/-- The trailing flag-bit padding of blz_encode (blz.rs lines 204-207):
shift the mask right until it reaches 0 or 1, shifting the current flag
byte left once per step.  The mask is a u32, so 32 shifts always reach 0
and the fuel branch (fuel is always 32) is unreachable. -/
def blzFlagPad (flagIndex : Nat) : Nat → Nat → List Nat → List Nat
  | 0, _, result => result
  | fuel + 1, mask, result =>
    if mask = 0 ∨ mask = 1 then result
    else blzFlagPad flagIndex fuel (mask >>> 1)
      (result.set flagIndex ((result.getD flagIndex 0 <<< 1) &&& 255))

/-- The 0xFF padding of the container to a multiple of 4 bytes together
with the header length update (blz.rs lines 234-237); at most 3 bytes are
appended, so the fuel branch (fuel is always 4) is unreachable. -/
def blzPadTo4 : Nat → List Nat → Nat → List Nat × Nat
  | 0, l, hdr => (l, hdr)
  | fuel + 1, l, hdr =>
    if l.length % 4 = 0 then (l, hdr) else blzPadTo4 fuel (l ++ [255]) (hdr + 1)

/-- blz_encode (blz.rs lines 138-245).  The Rust function reverses the
caller's buffer in place and reverses it back before assembling the
container (lines 142 and 209), so the pure model works on input.reverse
and the caller's buffer is unchanged on return. -/
def blzEncode (input : List Nat) : Except String (List Nat) := do
  let rev := input.reverse
  let st ← blzEncodeLoop rev (rev.length + 1) 0
    { result := [], flagIndex := 0, mask := 0,
      ibl := input.length, rbw := 0, posBest := none }
  let result := blzFlagPad st.flagIndex 32 st.mask st.result
  -- line 214: (rbw + ibl + 3) & (u32::MAX - 3) rounds down to a multiple of 4
  let idk := input.length + 4 < (st.rbw + st.ibl + 3) / 4 * 4 + 8
  if st.rbw = 0 ∨ idk then .error "not yet implemented" else do
  let container1 := input.take st.ibl ++ result.drop (result.length - st.rbw)
  let sizeIncrease ← u32sub (← u32sub input.length st.ibl) st.rbw
  let padded := blzPadTo4 4 container1 8
  let encLenField ← u32add st.rbw padded.2
  if encLenField ≥ 16777216 then .error "u24 out of range" else do
  let hdrByte ← u8try padded.2
  let incField ← u32sub sizeIncrease padded.2
  pure (padded.1 ++ [encLenField % 256, encLenField / 256 % 256,
    encLenField / 65536 % 256, hdrByte] ++ u32Bytes incField)

/-- The bytes appended by one back-reference copy: byte i is read pos
places before the end of the output extended by bytes 0..i-1, so a copy
longer than pos re-reads bytes the same copy has just produced. -/
def backrefBytes (out : List Nat) (pos : Nat) : Nat → List Nat
  | 0 => []
  | n + 1 =>
    out.getD (out.length - pos) 0 ::
      backrefBytes (out ++ [out.getD (out.length - pos) 0]) pos n

/-!
## Byte readers and writers for the CGFX engine, from src/bcres/bcres.rs

A Cursor over an immutable byte buffer is a buffer plus a position; reads
past the end are the io errors of the Rust readers.  A Cursor over a
growable Vec is modelled by writeBytesAt, which overwrites in the middle
and extends (zero-filling any gap) at the end, the behaviour of the std
Write impl for Cursor over a Vec.
-/

/-- Read one byte at an absolute position. -/
def readU8At (buf : List Nat) (p : Nat) : Except String Nat :=
  if p < buf.length then .ok (buf.getD p 0)
  else .error "failed to fill whole buffer"

/-- Read a little-endian u16 at an absolute position. -/
def readU16At (buf : List Nat) (p : Nat) : Except String Nat :=
  (readU8At buf p).bind (fun a => (readU8At buf (p + 1)).map (fun b => a + b * 256))

/-- Read a little-endian u32 at an absolute position, as the Rust
read_u32 of the byteorder crate. -/
def readU32ChkAt (buf : List Nat) (p : Nat) : Except String Nat :=
  (readU8At buf p).bind (fun a =>
    (readU8At buf (p + 1)).bind (fun b =>
      (readU8At buf (p + 2)).bind (fun c =>
        (readU8At buf (p + 3)).map (fun d =>
          a + b * 256 + c * 65536 + d * 16777216))))

/-- Pointer::read (pointer.rs lines 85-93): read a u32 and map the zero
sentinel to None. -/
def pointerRead (buf : List Nat) (p : Nat) : Except String (Option Nat) :=
  (readU32ChkAt buf p).map (fun v => if v = 0 then none else some v)

/-- Addition of a small signed constant to a Pointer (the Add i32 impl of
pointer.rs lines 41-48): both operands pass through i32, so any result
beyond i32::MAX is a Rust panic. -/
def pointerAddSigned (a b : Nat) : Except String Nat :=
  if a ≤ 2147483647 ∧ b ≤ 2147483647 ∧ a + b ≤ 2147483647 then .ok (a + b)
  else .error "pointer arithmetic overflow"

/-- The NUL-terminated byte string starting a list: none when no NUL byte
follows (the io error of read_string, bcres.rs lines 11-25). -/
def takeUntilNul : List Nat → Option (List Nat)
  | [] => none
  | b :: rest => if b = 0 then some [] else (takeUntilNul rest).map (b :: ·)

/-- Validity of a byte list as UTF-8, as checked by String::from_utf8. -/
def utf8Valid : List Nat → Bool
  | [] => true
  | b :: rest =>
    if b < 128 then utf8Valid rest
    else if 194 ≤ b ∧ b ≤ 223 then
      match rest with
      | c1 :: rest2 => 128 ≤ c1 ∧ c1 ≤ 191 && utf8Valid rest2
      | [] => false
    else if 224 ≤ b ∧ b ≤ 239 then
      match rest with
      | c1 :: c2 :: rest2 =>
        (if b = 224 then 160 ≤ c1 ∧ c1 ≤ 191
         else if b = 237 then 128 ≤ c1 ∧ c1 ≤ 159
         else 128 ≤ c1 ∧ c1 ≤ 191) &&
        (128 ≤ c2 ∧ c2 ≤ 191) && utf8Valid rest2
      | _ => false
    else if 240 ≤ b ∧ b ≤ 244 then
      match rest with
      | c1 :: c2 :: c3 :: rest2 =>
        (if b = 240 then 144 ≤ c1 ∧ c1 ≤ 191
         else if b = 244 then 128 ≤ c1 ∧ c1 ≤ 143
         else 128 ≤ c1 ∧ c1 ≤ 191) &&
        (128 ≤ c2 ∧ c2 ≤ 191) && (128 ≤ c3 ∧ c3 ≤ 191) && utf8Valid rest2
      | _ => false
    else false

/-- read_string (bcres.rs lines 11-25) from an absolute position: bytes up
to the next NUL, which must exist and form valid UTF-8.  Strings stay in
byte form; UTF-8 decoding is a bijection on valid byte lists. -/
def readStringAt (buf : List Nat) (p : Nat) : Except String (List Nat) :=
  match takeUntilNul (buf.drop p) with
  | none => .error "failed to fill whole buffer"
  | some s => if utf8Valid s then .ok s else .error "invalid utf-8 sequence"

/-- get_4_byte_string (lib.rs lines 26-31): reads up to 4 bytes (a short
read leaves the zero-initialised tail) and validates UTF-8. -/
def get4ByteString (buf : List Nat) (p : Nat) : Except String (List Nat × Nat) :=
  let got := (buf.drop p).take 4
  let bytes := got ++ List.replicate (4 - got.length) 0
  if utf8Valid bytes then .ok (bytes, p + got.length)
  else .error "invalid utf-8 sequence"

/-- Overwrite-or-extend write of Cursor over a growable Vec: bytes land at
position p, any gap beyond the current end is zero-filled. -/
def writeBytesAt (out : List Nat) (p : Nat) (bs : List Nat) : List Nat :=
  (out.take p ++ List.replicate (p - out.length) 0) ++ bs ++ out.drop (p + bs.length)

/-- write_at_pointer (lib.rs lines 33-42): write a u32 at the pointer,
restoring the current position (the model keeps positions explicit, so
only the buffer changes). -/
def writeAtPointer (out : List Nat) (p : Nat) (v : Nat) : List Nat :=
  writeBytesAt out p (u32Bytes v)

/-!
## The write context, from src/bcres/bcres.rs lines 27-74

string_references and image_references are HashMaps in Rust; they are
modelled as insertion-ordered association lists.  All patch locations are
distinct in every use, so the unspecified HashMap iteration order cannot
change the bytes produced by the patch loops.
-/

structure WriteContext where
  stringSection : List Nat
  stringReferences : List (Nat × List Nat)
  imageSection : List Nat
  imageReferences : List (Nat × Nat)
  deriving Repr, DecidableEq

/-- WriteContext::new (bcres.rs lines 38-45). -/
def WriteContext.new : WriteContext := ⟨[], [], [], []⟩

/-- HashMap::insert on an association list: replace the value of an
existing key, else append. -/
def insertRef {α : Type} (l : List (Nat × α)) (k : Nat) (v : α) : List (Nat × α) :=
  if l.any (fun kv => kv.1 = k) then
    l.map (fun kv => if kv.1 = k then (k, v) else kv)
  else l ++ [(k, v)]

/-- Containment of one byte list inside another as a contiguous run, the
test str::find(..).is_some() performs (on valid UTF-8, byte-level and
character-level containment coincide). -/
def listInfixOf (pat : List Nat) : List Nat → Bool
  | [] => pat.isEmpty
  | b :: rest => pat.isPrefixOf (b :: rest) || listInfixOf pat rest

/-- WriteContext::add_string (bcres.rs lines 47-56): a no-op when the
string already occurs inside the pool, otherwise the string plus a NUL
terminator is appended. -/
def WriteContext.addString (ctx : WriteContext) (s : List Nat) : WriteContext :=
  if listInfixOf s ctx.stringSection then ctx
  else { ctx with stringSection := ctx.stringSection ++ s ++ [0] }

/-- WriteContext::add_string_reference (bcres.rs lines 58-60). -/
def WriteContext.addStringReference (ctx : WriteContext) (origin : Nat)
    (target : List Nat) : WriteContext :=
  { ctx with stringReferences := insertRef ctx.stringReferences origin target }

/-- WriteContext::append_to_image_section (bcres.rs lines 62-68). -/
def WriteContext.appendToImageSection (ctx : WriteContext) (content : List Nat) :
    WriteContext :=
  { ctx with imageSection := ctx.imageSection ++ content }

/-- WriteContext::add_image_reference_to_current_end (bcres.rs lines 70-73). -/
def WriteContext.addImageReferenceToCurrentEnd (ctx : WriteContext) (origin : Nat) :
    WriteContext :=
  { ctx with imageReferences := insertRef ctx.imageReferences origin ctx.imageSection.length }

/-!
## The dictionary primitive, from src/bcres/bcres.rs lines 98-238

The value type is kept generic, as in the Rust trait CgfxCollectionValue:
a reader takes the buffer and an absolute position, a writer takes the
value, the output buffer with its position, and the write context.
-/

/-- A reader for dictionary values: buffer and absolute position in. -/
def ValueReader (α : Type) : Type := List Nat → Nat → Except String α

/-- A writer for dictionary values: value, output buffer, position and
write context in; new buffer, position and context out. -/
def ValueWriter (α : Type) : Type :=
  α → List Nat → Nat → WriteContext → Except String (List Nat × Nat × WriteContext)

/-- CgfxNode (bcres.rs lines 98-110), with names as UTF-8 byte lists. -/
structure CgfxNode (α : Type) where
  referenceBit : Nat
  leftNodeIndex : Nat
  rightNodeIndex : Nat
  name : Option (List Nat)
  value : Option α
  fileOffset : Nat
  namePointer : Option Nat
  valuePointer : Option Nat

/-- CgfxNode::from_reader (bcres.rs lines 113-135): the node records its
own start offset, then reads reference bit, child indices and the two
pointer fields; name and value stay unresolved. -/
def nodeFromReader (α : Type) (buf : List Nat) (p : Nat) :
    Except String (CgfxNode α × Nat) :=
  (readU32ChkAt buf p).bind (fun refBit =>
    (readU16At buf (p + 4)).bind (fun left =>
      (readU16At buf (p + 6)).bind (fun right =>
        (pointerRead buf (p + 8)).bind (fun namePtr =>
          (pointerRead buf (p + 12)).map (fun valuePtr =>
            (⟨refBit, left, right, none, none, p, namePtr, valuePtr⟩, p + 16))))))

/-- Sequential read of count nodes (the collect over (0..values_count + 1)
at bcres.rs lines 178-180). -/
def readNodes (α : Type) (buf : List Nat) :
    Nat → Nat → Except String (List (CgfxNode α) × Nat)
  | 0, p => .ok ([], p)
  | n + 1, p =>
    (nodeFromReader α buf p).bind (fun np =>
      (readNodes α buf n np.2).map (fun rest => (np.1 :: rest.1, rest.2)))

/-- Name resolution for one node (bcres.rs lines 185-192): nothing for the
zero sentinel; otherwise seek to file_offset + 8 + name_pointer (the + 8
through the i32 Add impl of Pointer) and read a NUL-terminated string. -/
def resolveName (buf : List Nat) (fileOffset : Nat) :
    Option Nat → Except String (Option (List Nat))
  | none => .ok none
  | some p =>
    (pointerAddSigned fileOffset 8).bind (fun o1 =>
      (u32add o1 p).bind (fun off =>
        (readStringAt buf off).map some))

/-- Value resolution for one node (bcres.rs lines 194-201): nothing for
the zero sentinel; otherwise invoke the value reader at
file_offset + 12 + value_pointer. -/
def resolveValue {α : Type} (readValue : ValueReader α) (buf : List Nat)
    (fileOffset : Nat) : Option Nat → Except String (Option α)
  | none => .ok none
  | some p =>
    (pointerAddSigned fileOffset 12).bind (fun o1 =>
      (u32add o1 p).bind (fun off =>
        (readValue buf off).map some))

/-- The second pass of CgfxDict::from_reader over one node (bcres.rs lines
184-202).  The reader position is saved and restored around either detour
(the scoped_reader_pos guard), so resolution is independent per node and
both seeks take absolute targets. -/
def resolveNode {α : Type} (readValue : ValueReader α) (buf : List Nat)
    (node : CgfxNode α) : Except String (CgfxNode α) :=
  (resolveName buf node.fileOffset node.namePointer).bind (fun nm =>
    (resolveValue readValue buf node.fileOffset node.valuePointer).map (fun v =>
      { node with name := nm, value := v }))

/-- CgfxDict (bcres.rs lines 157-163), with the magic as its 4 bytes. -/
structure CgfxDict (α : Type) where
  magicNumber : List Nat
  treeLength : Nat
  valuesCount : Nat
  nodes : List (CgfxNode α)

/-- CgfxDict::from_reader (bcres.rs lines 173-210) started at an absolute
position, as CgfxDict::from_buffer (lines 166-171) does: magic, tree
length and count, then values_count + 1 nodes, then the resolution pass. -/
def dictFromBuffer {α : Type} (readValue : ValueReader α) (buf : List Nat)
    (startPos : Nat) : Except String (CgfxDict α) :=
  (get4ByteString buf startPos).bind (fun mp =>
    (readU32ChkAt buf mp.2).bind (fun treeLength =>
      (readU32ChkAt buf (mp.2 + 4)).bind (fun valuesCount =>
        (u32add valuesCount 1).bind (fun count =>
          (readNodes α buf count (mp.2 + 8)).bind (fun nodes =>
            (nodes.1.mapM (resolveNode readValue buf)).map (fun resolved =>
              ⟨mp.1, treeLength, valuesCount, resolved⟩))))))

/-- CgfxNode::to_writer (bcres.rs lines 137-154): fixed fields, two zero
placeholder pointers, the name staged into the write context; gives back
the value placeholder location. -/
def nodeToWriter {α : Type} (node : CgfxNode α) (out : List Nat) (p : Nat)
    (ctx : WriteContext) : (List Nat × Nat × WriteContext × Nat) :=
  let out1 := writeBytesAt out p
    (u32Bytes node.referenceBit ++ u16Bytes node.leftNodeIndex ++
      u16Bytes node.rightNodeIndex ++ u32Bytes 0 ++ u32Bytes 0)
  let namePointerLocation := p + 8
  let valuePointerLocation := p + 12
  let ctx1 :=
    match node.name with
    | some nm =>
      (ctx.addString nm).addStringReference namePointerLocation nm
    | none => ctx
  (out1, p + 16, ctx1, valuePointerLocation)

/-- The node loop of CgfxDict::to_writer (bcres.rs lines 219-233): after
each node header, a present value is written at the current position and
the placeholder patched with the offset relative to its own location. -/
def dictWriteNodes {α : Type} (writeValue : ValueWriter α) :
    List (CgfxNode α) → List Nat → Nat → WriteContext →
      Except String (List Nat × Nat × WriteContext)
  | [], out, p, ctx => .ok (out, p, ctx)
  | node :: rest, out, p, ctx =>
    match nodeToWriter node out p ctx with
    | (out1, p1, ctx1, valuePointerLocation) =>
      match node.value with
      | some v =>
        (u32sub p1 valuePointerLocation).bind (fun rel =>
          (writeValue v (writeAtPointer out1 valuePointerLocation rel) p1 ctx1).bind
            (fun res => dictWriteNodes writeValue rest res.1 res.2.1 res.2.2))
      | none => dictWriteNodes writeValue rest out1 p1 ctx1

/-- CgfxDict::to_writer (bcres.rs lines 212-237): the node-count assert,
then magic, tree_length, values_count and the node loop. -/
def dictToWriter {α : Type} (writeValue : ValueWriter α) (dict : CgfxDict α)
    (out : List Nat) (p : Nat) (ctx : WriteContext) :
    Except String (List Nat × Nat × WriteContext) :=
  (u32add dict.valuesCount 1).bind (fun c1 =>
    if c1 ≠ dict.nodes.length % 4294967296 then
      .error "values_count does not match node count"
    else
      let out1 := writeBytesAt out p
        (dict.magicNumber ++ u32Bytes dict.treeLength ++ u32Bytes dict.valuesCount)
      dictWriteNodes writeValue dict.nodes out1 (p + dict.magicNumber.length + 8) ctx)

/-!
## The top-level container, from src/bcres/bcres.rs lines 240-437
-/

/-- CgfxHeader (bcres.rs lines 240-254). -/
structure CgfxHeader where
  byteOrderMark : Nat
  headerLength : Nat
  revision : Nat
  fileLength : Nat
  sectionsCount : Nat
  contentMagicNumber : Nat
  contentLength : Nat
  deriving Repr, DecidableEq

/-- The binrw read of CgfxHeader: the CGFX magic must match, then seven
little-endian fields follow, with the DATA assert on content_magic_number
(bcres.rs lines 249-251).  Gives the header and the position after it. -/
def headerFromBuffer (buf : List Nat) (p : Nat) :
    Except String (CgfxHeader × Nat) :=
  (readU8At buf p).bind (fun m0 =>
    (readU8At buf (p + 1)).bind (fun m1 =>
      (readU8At buf (p + 2)).bind (fun m2 =>
        (readU8At buf (p + 3)).bind (fun m3 =>
          if m0 = 67 ∧ m1 = 71 ∧ m2 = 70 ∧ m3 = 88 then
            (readU16At buf (p + 4)).bind (fun bom =>
              (readU16At buf (p + 6)).bind (fun hdrLen =>
                (readU32ChkAt buf (p + 8)).bind (fun revision =>
                  (readU32ChkAt buf (p + 12)).bind (fun fileLength =>
                    (readU32ChkAt buf (p + 16)).bind (fun sections =>
                      (readU32ChkAt buf (p + 20)).bind (fun contentMagic =>
                        (readU32ChkAt buf (p + 24)).bind (fun contentLength =>
                          if contentMagic = 1096040772 then
                            .ok (⟨bom, hdrLen, revision, fileLength, sections,
                              contentMagic, contentLength⟩, p + 28)
                          else .error "Invalid magic number for data")))))))
          else .error "bad magic"))))

/-- The binrw write of CgfxHeader: CGFX magic then the fields. -/
def headerBytes (h : CgfxHeader) : List Nat :=
  [67, 71, 70, 88] ++ u16Bytes h.byteOrderMark ++ u16Bytes h.headerLength ++
    u32Bytes h.revision ++ u32Bytes h.fileLength ++ u32Bytes h.sectionsCount ++
    u32Bytes h.contentMagicNumber ++ u32Bytes h.contentLength

/-- The slot-table loop of CgfxContainer::new (bcres.rs lines 283-292):
from each 8-byte pair, the count, and the offset u32 mapped through the
zero sentinel and then resolved by pointer + position + 4 where position
is the pair start (so a non-zero offset is relative to the position of the
offset field itself, pair start + 4). -/
def readDictRefsLoop (buf : List Nat) :
    Nat → Nat → Except String (List (Nat × Option Nat))
  | 0, _ => .ok []
  | n + 1, p =>
    (readU32ChkAt buf p).bind (fun count =>
      (pointerRead buf (p + 4)).bind (fun optPtr =>
        (match optPtr with
          | none => (.ok none : Except String (Option Nat))
          | some v =>
            (u32add v p).bind (fun vp => (pointerAddSigned vp 4).map some)).bind
          (fun resolved =>
            (readDictRefsLoop buf n (p + 8)).map (fun rest =>
              (count, resolved) :: rest))))

/-- The header and slot-table reading prefix of CgfxContainer::new
(bcres.rs lines 279-292); the 16 dictionaries are then parsed from the
positions this table yields. -/
def readDictReferences (buf : List Nat) :
    Except String (CgfxHeader × List (Nat × Option Nat)) :=
  (headerFromBuffer buf 0).bind (fun hp =>
    (readDictRefsLoop buf 16 hp.2).map (fun refs => (hp.1, refs)))

/-- Position of the first occurrence of one byte list inside another, the
str::find of the string-reference patch loop. -/
def listIndexOf (pat : List Nat) : List Nat → Option Nat
  | [] => if pat.isEmpty then some 0 else none
  | b :: rest =>
    if pat.isPrefixOf (b :: rest) then some 0
    else (listIndexOf pat rest).map (· + 1)

/-- The string-reference patch loop of to_buffer_debug (bcres.rs lines
390-397): for every pending reference whose string occurs in the pool,
write the string position relative to the patch location. -/
def applyStringRefs (sectionStart : Nat) (pool : List Nat) :
    List (Nat × List Nat) → List Nat → Except String (List Nat)
  | [], out => .ok out
  | (location, target) :: rest, out =>
    match listIndexOf target pool with
    | some off =>
      (u32add off sectionStart).bind (fun absOff =>
        (u32sub absOff location).bind (fun rel =>
          applyStringRefs sectionStart pool rest (writeAtPointer out location rel)))
    | none => applyStringRefs sectionStart pool rest out

/-- The image-reference patch loop of to_buffer_debug (bcres.rs lines
412-417). -/
def applyImageRefs (imageSectionOffset : Nat) :
    List (Nat × Nat) → List Nat → Except String (List Nat)
  | [], out => .ok out
  | (location, imageOffset) :: rest, out =>
    (u32add imageSectionOffset imageOffset).bind (fun absOff =>
      (u32sub absOff location).bind (fun rel =>
        applyImageRefs imageSectionOffset rest (writeAtPointer out location rel)))

/-- CgfxContainer (bcres.rs lines 256-276), generic over the model and
texture payloads as the Rust struct is over CgfxModel and CgfxTexture. -/
structure CgfxContainer (μ τ : Type) where
  header : CgfxHeader
  models : Option (CgfxDict μ)
  textures : Option (CgfxDict τ)
  luts : Option (CgfxDict Unit)
  materials : Option (CgfxDict Unit)
  shaders : Option (CgfxDict Unit)
  cameras : Option (CgfxDict Unit)
  lights : Option (CgfxDict Unit)
  fogs : Option (CgfxDict Unit)
  scenes : Option (CgfxDict Unit)
  skeletalAnimations : Option (CgfxDict Unit)
  materialAnimations : Option (CgfxDict Unit)
  visibilityAnimations : Option (CgfxDict Unit)
  cameraAnimations : Option (CgfxDict Unit)
  lightAnimations : Option (CgfxDict Unit)
  fogAnimations : Option (CgfxDict Unit)
  emitters : Option (CgfxDict Unit)

/-- Everything CgfxContainer::to_buffer_debug (bcres.rs lines 354-429)
emits before its final length assert, called with original = None as
to_buffer does (so the assert_matching probes are no-ops): header, 16
zeroed slot pairs, the textures dictionary (the only slot the writer
serializes) with its slot-table patch, the string patches and pool, the
128-byte alignment padding, the image patches and the IMAG section. -/
def containerToBufferBody {μ τ : Type} (texWriter : ValueWriter τ)
    (c : CgfxContainer μ τ) : Except String (List Nat) :=
  let out0 := writeBytesAt [] 0 (headerBytes c.header)
  let dictPointersLocation := 28
  let out1 := writeBytesAt out0 28 (List.replicate 128 0)
  (match c.textures with
    | some textures =>
      (pointerAddSigned dictPointersLocation 8).bind (fun referenceOffset =>
        (pointerAddSigned referenceOffset 4).bind (fun refPlus4 =>
          (u32sub 156 refPlus4).bind (fun relativeOffset =>
            (u32sub textures.nodes.length 1).bind (fun count =>
              if count ≤ u32Max then
                dictToWriter texWriter textures
                  (writeAtPointer (writeAtPointer out1 referenceOffset count)
                    refPlus4 relativeOffset)
                  156 WriteContext.new
              else .error "count conversion failed"))))
    | none => .ok (out1, 156, WriteContext.new)).bind (fun res =>
  match res with
  | (out2, p2, ctx2) =>
    (applyStringRefs p2 ctx2.stringSection ctx2.stringReferences out2).bind
      (fun out3 =>
    let out4 := writeBytesAt out3 p2 ctx2.stringSection
    let p4 := p2 + ctx2.stringSection.length
    if p4 ≥ 2147483641 then .error "i32 overflow" else
    let paddingSize := ((((-(p4 : Int)) - 8).tmod 128 + 128).tmod 128).toNat
    let out5 := writeBytesAt out4 p4 (List.replicate paddingSize 0)
    let p5 := p4 + paddingSize
    (pointerAddSigned p5 8).bind (fun imageSectionOffset =>
      (applyImageRefs imageSectionOffset ctx2.imageReferences out5).bind (fun out6 =>
        if ctx2.imageSection.length ≤ u32Max then
          (u32add ctx2.imageSection.length 8).map (fun lenField =>
            writeBytesAt out6 p5
              ([73, 77, 65, 71] ++ u32Bytes lenField ++ ctx2.imageSection))
        else .error "image section length conversion failed"))))

/-- CgfxContainer::to_buffer_debug with original = None, i.e. to_buffer
(bcres.rs lines 350-352): the body above, then the final assert that the
emitted byte length equals the file_length header field (lines 430-433). -/
def containerToBuffer {μ τ : Type} (texWriter : ValueWriter τ)
    (c : CgfxContainer μ τ) : Except String (List Nat) :=
  (containerToBufferBody texWriter c).bind (fun out =>
    if out.length = c.header.fileLength then .ok out
    else .error "Written file size does not match expected file size")

/-!
## The texture pixel codec, from src/bcres/image_codec.rs

decode_swizzled_buffer (lines 111-241), decode_etc1 (lines 246-363),
saturate (lines 376-384) and decode_etc1_pixel (lines 386-402), with the
format enumeration and get_bpp from src/bcres/texture.rs lines 17-49.
The three nested loops of each decoder (8x8 tiles, then the 64-entry
permutation or the four 4x4 sub-blocks) are flattened into one list of
iteration triples traversed in the same order, with the input offset or
read position threaded through exactly as the Rust mutable counters are.
-/

structure RgbaColor where
  r : Nat
  g : Nat
  b : Nat
  a : Nat
  deriving Repr, DecidableEq

/-- RgbaColor::default. -/
def rgbaDefault : RgbaColor := ⟨0, 0, 0, 0⟩

/-- RgbaColor::grayscale (image_codec.rs lines 21-28). -/
def RgbaColor.grayscale (lightness : Nat) : RgbaColor :=
  ⟨lightness, lightness, lightness, 255⟩

/-- RgbaColor::grayscale_alpha (image_codec.rs lines 30-37). -/
def RgbaColor.grayscaleAlpha (lightness alpha : Nat) : RgbaColor :=
  ⟨lightness, lightness, lightness, alpha⟩

/-- RgbaColor::from_alpha (image_codec.rs lines 39-46). -/
def RgbaColor.fromAlpha (alpha : Nat) : RgbaColor := ⟨255, 255, 255, alpha⟩

inductive PicaTextureFormat where
  | RGBA8
  | RGB8
  | RGBA5551
  | RGB565
  | RGBA4
  | LA8
  | HiLo8
  | L8
  | A8
  | LA4
  | L4
  | A4
  | ETC1
  | ETC1A4
  deriving Repr, DecidableEq

/-- PicaTextureFormat::get_bpp (texture.rs lines 32-49). -/
def PicaTextureFormat.getBpp : PicaTextureFormat → Nat
  | .RGBA8 => 32
  | .RGB8 => 24
  | .RGBA5551 => 16
  | .RGB565 => 16
  | .RGBA4 => 16
  | .LA8 => 16
  | .HiLo8 => 16
  | .L8 => 8
  | .A8 => 8
  | .LA4 => 8
  | .L4 => 4
  | .A4 => 4
  | .ETC1 => 4
  | .ETC1A4 => 8

/-- bytes_per_pixel = max(bpp / 8, 1) (image_codec.rs line 116). -/
def bytesPerPixel (fmt : PicaTextureFormat) : Nat :=
  Nat.max (fmt.getBpp / 8) 1

/-- SWIZZLE_LUT (image_codec.rs lines 100-109). -/
def swizzleLut : List Nat :=
  [0, 1, 8, 9, 2, 3, 10, 11,
   16, 17, 24, 25, 18, 19, 26, 27,
   4, 5, 12, 13, 6, 7, 14, 15,
   20, 21, 28, 29, 22, 23, 30, 31,
   32, 33, 40, 41, 34, 35, 42, 43,
   48, 49, 56, 57, 50, 51, 58, 59,
   36, 37, 44, 45, 38, 39, 46, 47,
   52, 53, 60, 61, 54, 55, 62, 63]

/-- ETC1_LUT (image_codec.rs lines 365-374). -/
def etc1Lut : List (List Int) :=
  [[2, 8, -2, -8],
   [5, 17, -5, -17],
   [9, 29, -9, -29],
   [13, 42, -13, -42],
   [18, 60, -18, -60],
   [24, 80, -24, -80],
   [33, 106, -33, -106],
   [47, 183, -47, -183]]

/-- Checked u32 multiplication: overflow is a Rust panic. -/
def u32mul (a b : Nat) : Except String Nat :=
  if a * b ≤ u32Max then .ok (a * b) else .error "attempt to multiply with overflow"

/-- Vec (and array) element assignment: out of range is a Rust panic. -/
def setChk {α : Type} (l : List α) (i : Nat) (v : α) : Except String (List α) :=
  if i < l.length then .ok (l.set i v) else .error "index out of bounds"

/-- saturate (image_codec.rs lines 376-384): clamp an i32 into [0, 255]. -/
def saturate (value : Int) : Nat :=
  if value < 0 then 0
  else if value > 255 then 255
  else value.toNat

/-- The intensity modifier decode_etc1_pixel looks up: ETC1_LUT row table,
column built from the two per-pixel index bits of the big-endian color
word (image_codec.rs lines 387-394). -/
def etcModifier (blockBigEndian table idx : Nat) : Int :=
  let msb := (blockBigEndian <<< 1) % 4294967296
  if idx < 8 then
    (etc1Lut.getD table []).getD
      (((blockBigEndian >>> (idx + 24)) &&& 1) + ((msb >>> (idx + 8)) &&& 2)) 0
  else
    (etc1Lut.getD table []).getD
      (((blockBigEndian >>> (idx + 8)) &&& 1) + ((msb >>> (idx - 8)) &&& 2)) 0

/-- decode_etc1_pixel (image_codec.rs lines 386-402): each channel is the
saturated sum of the base channel and the table modifier.  A table index
of 8 or more is the ETC1_LUT indexing panic, and a pixel index of 24 or
more in the high branch would be a shift-overflow panic (callers pass
x, y below 4 and a 3-bit table). -/
def decodeEtc1Pixel (baseColor : RgbaColor) (x y blockBigEndian table : Nat) :
    Except String RgbaColor :=
  let index := x * 4 + y
  if table ≥ 8 then .error "index out of bounds"
  else if 24 ≤ index then .error "attempt to shift with overflow"
  else
    .ok ⟨saturate (baseColor.r + etcModifier blockBigEndian table index),
      saturate (baseColor.g + etcModifier blockBigEndian table index),
      saturate (baseColor.b + etcModifier blockBigEndian table index), 255⟩

/-- Reinterpretation of a byte as a Rust i8. -/
def asI8 (v : Nat) : Int :=
  if v % 256 < 128 then (v % 256 : Int) else (v % 256 : Int) - 256

/-- Base-plus-3-bit-delta channel of the ETC1 differential mode
(image_codec.rs lines 283-288): ((base5 as i32) + ((t as i8) >> 5)) as u8,
with the arithmetic right shift as floor division and the u8 cast as the
low byte. -/
def etc1DeltaAdd (base5 t : Nat) : Nat :=
  (((base5 : Int) + Int.fdiv (asI8 t) 32).emod 256).toNat

/-- The two base colors of an ETC1 color block (image_codec.rs lines
276-316), from the high color word. -/
def etc1Bases (high : Nat) : RgbaColor × RgbaColor :=
  if high &&& 2 ≠ 0 then
    let r0 := (high &&& 4160749568) >>> 24
    let g0 := (high &&& 16252928) >>> 16
    let b0 := (high &&& 63488) >>> 8
    let r1 := etc1DeltaAdd (r0 >>> 3) ((high &&& 117440512) >>> 19)
    let g1 := etc1DeltaAdd (g0 >>> 3) ((high &&& 458752) >>> 11)
    let b1 := etc1DeltaAdd (b0 >>> 3) ((high &&& 1792) >>> 3)
    (⟨r0 ||| (r0 >>> 5), g0 ||| (g0 >>> 5), b0 ||| (b0 >>> 5), 255⟩,
     ⟨((r1 <<< 3) &&& 255) ||| (r1 >>> 2), ((g1 <<< 3) &&& 255) ||| (g1 >>> 2),
      ((b1 <<< 3) &&& 255) ||| (b1 >>> 2), 255⟩)
  else
    let r0 := (high &&& 4026531840) >>> 24
    let g0 := (high &&& 15728640) >>> 16
    let b0 := (high &&& 61440) >>> 8
    let r1 := (high &&& 251658240) >>> 20
    let g1 := (high &&& 983040) >>> 12
    let b1 := (high &&& 3840) >>> 4
    (⟨r0 ||| (r0 >>> 4), g0 ||| (g0 >>> 4), b0 ||| (b0 >>> 4), 255⟩,
     ⟨r1 ||| (r1 >>> 4), g1 ||| (g1 >>> 4), b1 ||| (b1 >>> 4), 255⟩)

/-- Byte swap of a u32, the to_be() call on the low color word. -/
def byteSwap32 (v : Nat) : Nat :=
  (v % 256) * 16777216 + (v / 256 % 256) * 65536 + (v / 65536 % 256) * 256 +
    v / 16777216 % 256

/-- Read a little-endian u64 at an absolute position. -/
def readU64At (buf : List Nat) (p : Nat) : Except String Nat :=
  (readU32ChkAt buf p).bind (fun lo =>
    (readU32ChkAt buf (p + 4)).map (fun hi => lo + hi * 4294967296))

/-- The per-sub-block reads of decode_etc1 (image_codec.rs lines 256-263):
an optional 8-byte alpha block (u64::MAX when absent) then the two color
words; gives the three values and the new read position. -/
def etc1SubBlockRead (buf : List Nat) (useAlpha : Bool) (readPos : Nat) :
    Except String (Nat × Nat × Nat × Nat) :=
  if useAlpha then
    (readU64At buf readPos).bind (fun alpha =>
      (readU32ChkAt buf (readPos + 8)).bind (fun lo =>
        (readU32ChkAt buf (readPos + 12)).map (fun hi =>
          (alpha, lo, hi, readPos + 16))))
  else
    (readU32ChkAt buf readPos).bind (fun lo =>
      (readU32ChkAt buf (readPos + 4)).map (fun hi =>
        (18446744073709551615, lo, hi, readPos + 8)))

/-- The pixel loop building one 4x4 chunk (image_codec.rs lines 323-339),
over the (local_y, local_x) pairs of the half-block iteration. -/
def etc1ChunkLoop (base0 base1 : RgbaColor) (flip : Bool) (lowBE table0 table1 : Nat) :
    List (Nat × Nat) → List RgbaColor → Except String (List RgbaColor)
  | [], chunk => .ok chunk
  | (ly, lx) :: rest, chunk =>
    let offset0 := ly * 4 + lx
    let offset1 := if flip then (ly + 2) * 4 + lx else ly * 4 + lx + 2
    let x1 := if flip then lx else lx + 2
    let y1 := if flip then ly + 2 else ly
    (decodeEtc1Pixel base0 lx ly lowBE table0).bind (fun p0 =>
      (setChk chunk offset0 p0).bind (fun c1 =>
        (decodeEtc1Pixel base1 x1 y1 lowBE table1).bind (fun p1 =>
          (setChk c1 offset1 p1).bind (fun c2 =>
            etc1ChunkLoop base0 base1 flip lowBE table0 table1 rest c2))))

/-- The iteration pairs of the chunk loop: local_y over 2 (flip) or 4 rows
and local_x over 4 (flip) or 2 columns. -/
def etc1ChunkCoords (flip : Bool) : List (Nat × Nat) :=
  ((List.range (if flip then 2 else 4))).flatMap (fun ly =>
    (List.range (if flip then 4 else 2)).map (fun lx => (ly, lx)))

/-- The output writing loop of one sub-block (image_codec.rs lines
341-356): walk the 4x4 area at (x + sub_x, y + sub_y), copying chunk
pixels and overriding alpha from the nibble-packed alpha block. -/
def etc1WriteLoop (width x y alphaBlock : Nat) (chunk : List RgbaColor) :
    List (Nat × Nat) → List RgbaColor → Nat → Except String (List RgbaColor)
  | [], out, _ => .ok out
  | (ly, lx) :: rest, out, tileOffset =>
    (u32add y ly).bind (fun yy =>
      (u32mul yy width).bind (fun t =>
        (u32add x lx).bind (fun xl =>
          (u32add xl t).bind (fun off =>
            let px := chunk.getD tileOffset rgbaDefault
            let alphaShift := ((lx &&& 3) * 4 + (ly &&& 3)) <<< 2
            let alpha := (alphaBlock >>> alphaShift) % 256 &&& 15
            (setChk out off { px with a := alpha ||| ((alpha <<< 4) &&& 255) }).bind
              (fun out2 =>
                etc1WriteLoop width x y alphaBlock chunk rest out2 (tileOffset + 1))))))

/-- The (local_y, local_x) pairs of the write loop, rows sub_y..sub_y+4
and columns sub_x..sub_x+4. -/
def etc1WriteCoords (subX subY : Nat) : List (Nat × Nat) :=
  (List.range 4).flatMap (fun dy =>
    (List.range 4).map (fun dx => (subY + dy, subX + dx)))

/-- One sub-block of decode_etc1: read, decode the color block, build the
chunk, write it out; the flip bit selects the half-block split and the
diff bit the base color encoding (image_codec.rs lines 255-357). -/
def etc1SubBlock (buf : List Nat) (useAlpha : Bool) (width x y subX subY : Nat)
    (out : List RgbaColor) (readPos : Nat) :
    Except String (List RgbaColor × Nat) :=
  (etc1SubBlockRead buf useAlpha readPos).bind (fun r =>
    match r with
    | (alphaBlock, lo, hi, pos2) =>
      let flip := hi &&& 1 ≠ 0
      let bases := etc1Bases hi
      let table0 := (hi >>> 5) &&& 7
      let table1 := (hi >>> 2) &&& 7
      (etc1ChunkLoop bases.1 bases.2 flip (byteSwap32 lo) table0 table1
          (etc1ChunkCoords flip) (List.replicate 16 rgbaDefault)).bind (fun chunk =>
        (etc1WriteLoop width x y alphaBlock chunk (etc1WriteCoords subX subY)
            out 0).map (fun out2 => (out2, pos2))))

/-- The flattened tile iteration of both decoders: for each 8x8 tile
origin, y stepping first as the outer loop. -/
def tileOrigins (width height : Nat) : List (Nat × Nat) :=
  (List.range ((height + 7) / 8)).flatMap (fun j =>
    (List.range ((width + 7) / 8)).map (fun i => (i * 8, j * 8)))

/-- The sub-block origins ETC1_X x ETC1_Y (image_codec.rs lines 243-244). -/
def etc1SubOrigins : List (Nat × Nat) := [(0, 0), (4, 0), (0, 4), (4, 4)]

/-- The sub-block loop of decode_etc1 over all tiles, threading the output
and the cursor position. -/
def decodeEtc1Loop (buf : List Nat) (useAlpha : Bool) (width : Nat) :
    List (Nat × Nat × Nat × Nat) → List RgbaColor → Nat →
      Except String (List RgbaColor)
  | [], out, _ => .ok out
  | (x, y, subX, subY) :: rest, out, readPos =>
    (etc1SubBlock buf useAlpha width x y subX subY out readPos).bind (fun r =>
      decodeEtc1Loop buf useAlpha width rest r.1 r.2)

/-- decode_etc1 (image_codec.rs lines 246-363). -/
def decodeEtc1 (buf : List Nat) (width height : Nat) (useAlpha : Bool) :
    Except String (List RgbaColor) :=
  (u32mul width height).bind (fun total =>
    decodeEtc1Loop buf useAlpha width
      ((tileOrigins width height).flatMap (fun xy =>
        etc1SubOrigins.map (fun st => (xy.1, xy.2, st.1, st.2))))
      (List.replicate total rgbaDefault) 0)

/-- The per-format pixel unpack of decode_swizzled_buffer (image_codec.rs
lines 131-232), reading at the current input offset.  HiLo8, RGB8 and any
other unlisted format is the not-implemented error of line 230. -/
def decodePixel (fmt : PicaTextureFormat) (buf : List Nat) (off : Nat) :
    Except String RgbaColor :=
  match fmt with
  | .RGBA8 =>
    (readU8At buf (off + 3)).bind (fun r =>
      (readU8At buf (off + 2)).bind (fun g =>
        (readU8At buf (off + 1)).bind (fun b =>
          (readU8At buf off).map (fun a => ⟨r, g, b, a⟩))))
  | .RGBA4 =>
    (readU16At buf off).map (fun raw =>
      let r := (raw >>> 12) &&& 15
      let g := (raw >>> 8) &&& 15
      let b := (raw >>> 4) &&& 15
      let a := raw &&& 15
      ⟨r ||| (r <<< 4), g ||| (g <<< 4), b ||| (b <<< 4), a ||| (a <<< 4)⟩)
  | .RGB565 =>
    (readU16At buf off).map (fun raw =>
      let r := ((raw >>> 11) &&& 31) <<< 3
      let g := ((raw >>> 5) &&& 63) <<< 2
      let b := ((raw >>> 0) &&& 31) <<< 3
      ⟨r ||| (r >>> 5), g ||| (g >>> 6), b ||| (b >>> 5), 255⟩)
  | .RGBA5551 =>
    (readU16At buf off).map (fun raw =>
      let r := ((raw >>> 11) &&& 31) <<< 3
      let g := ((raw >>> 6) &&& 31) <<< 3
      let b := ((raw >>> 1) &&& 31) <<< 3
      let a := (raw &&& 1) * 255
      ⟨r ||| (r >>> 5), g ||| (g >>> 5), b ||| (b >>> 5), a⟩)
  | .L8 => (readU8At buf off).map RgbaColor.grayscale
  | .L4 =>
    (readU8At buf (off / 2)).map (fun raw =>
      RgbaColor.grayscale (if off % 2 = 0 then (raw &&& 15) ||| ((raw <<< 4) &&& 255)
        else (raw &&& 240) ||| (raw >>> 4)))
  | .A8 => (readU8At buf off).map RgbaColor.fromAlpha
  | .A4 =>
    (readU8At buf (off / 2)).map (fun raw =>
      RgbaColor.fromAlpha (if off % 2 = 0 then (raw &&& 15) ||| ((raw <<< 4) &&& 255)
        else (raw &&& 240) ||| (raw >>> 4)))
  | .LA8 =>
    (readU8At buf off).bind (fun alpha =>
      (readU8At buf (off + 1)).map (fun color => RgbaColor.grayscaleAlpha color alpha))
  | .LA4 =>
    (readU8At buf off).map (fun raw =>
      let high := raw &&& 240
      let low := raw &&& 15
      ⟨high ||| (high >>> 4), high ||| (high >>> 4), high ||| (high >>> 4),
        low ||| ((low <<< 4) &&& 255)⟩)
  | _ => .error "Format not implemented yet"

/-- The flattened pixel iteration of decode_swizzled_buffer: every 8x8
tile origin paired with every swizzle permutation entry, in loop order. -/
def pixelStream (width height : Nat) : List (Nat × Nat × Nat) :=
  (tileOrigins width height).flatMap (fun xy =>
    swizzleLut.map (fun p => (xy.1, xy.2, p)))

/-- The output offset of one swizzled pixel:
x + local_x + (y + local_y) * width (image_codec.rs lines 126-129). -/
def swizzleOffset (width x y p : Nat) : Nat :=
  x + (p &&& 7) + (y + ((p - (p &&& 7)) >>> 3)) * width

/-- The pixel loop of decode_swizzled_buffer (image_codec.rs lines
121-238): per pixel, the checked u32 offset arithmetic, the format
unpack at the running input offset, the output store, and the input
offset advance by bytes_per_pixel. -/
def decodeSwizzledLoop (fmt : PicaTextureFormat) (buf : List Nat) (width : Nat) :
    List (Nat × Nat × Nat) → List RgbaColor → Nat → Except String (List RgbaColor)
  | [], out, _ => .ok out
  | (x, y, p) :: rest, out, inputOffset =>
    let lx := p &&& 7
    let ly := (p - lx) >>> 3
    (u32add y ly).bind (fun yy =>
      (u32mul yy width).bind (fun t =>
        (u32add x lx).bind (fun xl =>
          (u32add xl t).bind (fun off =>
            (decodePixel fmt buf inputOffset).bind (fun px =>
              (setChk out off px).bind (fun out2 =>
                decodeSwizzledLoop fmt buf width rest out2
                  (inputOffset + bytesPerPixel fmt)))))))

/-- decode_swizzled_buffer (image_codec.rs lines 111-241): the two ETC1
variants divert to decode_etc1; everything else allocates width * height
default pixels and runs the swizzled pixel loop. -/
def decodeSwizzledBuffer (buf : List Nat) (fmt : PicaTextureFormat)
    (width height : Nat) : Except String (List RgbaColor) :=
  if fmt = .ETC1A4 ∨ fmt = .ETC1 then
    decodeEtc1 buf width height (fmt = .ETC1A4)
  else
    (u32mul width height).bind (fun total =>
      decodeSwizzledLoop fmt buf width (pixelStream width height)
        (List.replicate total rgbaDefault) 0)

/-- The non-ETC1 formats decode_swizzled_buffer supports. -/
def supportedLinearFormats : List PicaTextureFormat :=
  [.RGBA8, .RGBA4, .RGB565, .RGBA5551, .L8, .L4, .A8, .A4, .LA8, .LA4]

/-- The input bytes n pixels of a format require: the last pixel read
reaches index (n - 1) * bytes_per_pixel + (format read width), except for
the nibble-packed L4 and A4 whose byte index is the pixel offset halved. -/
def requiredBytes (fmt : PicaTextureFormat) (n : Nat) : Nat :=
  match fmt with
  | .RGBA8 => n * 4
  | .RGBA4 => n * 2
  | .RGB565 => n * 2
  | .RGBA5551 => n * 2
  | .LA8 => n * 2
  | .L8 => n
  | .A8 => n
  | .LA4 => n
  | .L4 => (n + 1) / 2
  | .A4 => (n + 1) / 2
  | _ => 0

/-- The value of a successful Except computation, or the fallback. -/
def exceptGetD {α : Type} (x : Except String α) (d : α) : α :=
  match x with
  | .ok a => a
  | .error _ => d

/-- A 156-byte container prefix: a valid CGFX header (file length 156)
followed by the 16 slot pairs, of which slot 0 declares count 0 and raw
offset value 16 and the rest are zero. -/
def c3DemoBuf : List Nat :=
  [67, 71, 70, 88, 255, 254, 20, 0, 5, 0, 0, 0, 156, 0, 0, 0, 1, 0, 0, 0,
   68, 65, 84, 65, 0, 0, 0, 0] ++
  [0, 0, 0, 0, 16, 0, 0, 0] ++ List.replicate 120 0

/-- A container with no populated dictionary slots whose header declares
file length 256: header (28) + slot table (128) + padding (92) + IMAG
section (8). -/
def c7DemoContainer : CgfxContainer Unit Unit :=
  ⟨⟨65279, 20, 5, 256, 1, 1096040772, 0⟩,
    none, none, none, none, none, none, none, none,
    none, none, none, none, none, none, none, none⟩

/-- A hand-assembled BLZ container whose footer-length byte (5th from the
end) is 12, outside the valid range [8, 11]: footer declares an encoded
region of 20 bytes (16 raw + header 12, so the 8 stream bytes at offsets
4..12), an unencoded prefix of 4 bytes and a size increase of 35. -/
def blzBadFooterInput : List Nat :=
  [1, 2, 3, 4, 153, 1, 240, 1, 240, 1, 240, 224, 0, 0, 0, 0, 20, 0, 0, 12, 35, 0, 0, 0]

/-- The largest input byte index one pixel unpack touches. -/
def neededIndex (fmt : PicaTextureFormat) (off : Nat) : Nat :=
  match fmt with
  | .RGBA8 => off + 3
  | .RGBA4 => off + 1
  | .RGB565 => off + 1
  | .RGBA5551 => off + 1
  | .LA8 => off + 1
  | .L8 => off
  | .A8 => off
  | .LA4 => off
  | .L4 => off / 2
  | .A4 => off / 2
  | _ => 0

/-- The value reader of the unit payload type: reads nothing. -/
def unitReader : ValueReader Unit := fun _ _ => .ok ()

/-- The value writer of the unit payload type: writes nothing. -/
def unitWriter : ValueWriter Unit := fun _ out p ctx => .ok (out, p, ctx)

/-- A 39-byte buffer holding one dictionary: magic DICT, tree_length 28,
values_count 0, one node at offset 12 whose name pointer 16 points at the
NUL-terminated string AB stored at 12 + 8 + 16 = 36 and whose value
pointer 8 makes the value reader run at 12 + 12 + 8 = 32. -/
def dictDemoBuf : List Nat :=
  [68, 73, 67, 84, 28, 0, 0, 0, 0, 0, 0, 0,
   0, 0, 0, 0, 0, 0, 0, 0, 16, 0, 0, 0, 8, 0, 0, 0,
   0, 0, 0, 0, 0, 0, 0, 0, 65, 66, 0]

/-- The node dictDemoBuf holds, as parsed by dictFromBuffer. -/
def dictDemoNode : CgfxNode Unit :=
  ⟨0, 0, 0, some [65, 66], some (), 12, some 16, some 8⟩

end NwTex

deriving instance DecidableEq for Except

namespace NwTex

theorem lzCopy_length (pos : Nat) :
    ∀ (n : Nat) (out out2 : List Nat), lzCopy out pos n = some out2 →
      out2.length = out.length + n := by
  intro n
  induction n with
  | zero =>
    intro out out2 h
    simp only [lzCopy] at h
    cases h
    rfl
  | succ n ih =>
    intro out out2 h
    simp only [lzCopy] at h
    by_cases hc : 0 < pos ∧ pos ≤ out.length
    · rw [if_pos hc] at h
      have := ih _ _ h
      simp only [List.length_append, List.length_singleton] at this
      omega
    · rw [if_neg hc] at h
      cases h

/-- The fuel of blzDecodeLoop is semantically inert: any two fuel values
larger than the number of bytes still to be produced give the same result,
because every loop iteration lengthens the output.  So the loop models the
Rust while loop exactly when called with resultSize + 1 fuel. -/
theorem blzDecodeLoop_fuel (enc : List Nat) (resultSize : Nat) :
    ∀ (fuel fuel2 mask flags encPos : Nat) (out : List Nat),
      resultSize - out.length < fuel → resultSize - out.length < fuel2 →
      blzDecodeLoop enc resultSize fuel mask flags encPos out =
        blzDecodeLoop enc resultSize fuel2 mask flags encPos out := by
  intro fuel
  induction fuel with
  | zero => intro fuel2 mask flags encPos out h1 h2; omega
  | succ fuel ih =>
    intro fuel2 mask flags encPos out h1 h2
    match fuel2 with
    | 0 => omega
    | fuel2 + 1 =>
      rw [blzDecodeLoop]
      conv_rhs => rw [blzDecodeLoop]
      by_cases hg : out.length < resultSize
      · rw [if_pos hg, if_pos hg]
        have hfuel : 1 ≤ resultSize - out.length := by omega
        dsimp only
        split
        · rfl
        · rename_i m f ep hnext
          by_cases hf : f &&& m = 0
          · rw [if_pos hf, if_pos hf]
            by_cases hep : ep = enc.length
            · rw [if_pos hep, if_pos hep]
            · rw [if_neg hep, if_neg hep]
              exact ih fuel2 m f (ep + 1) _ (by simp; omega) (by simp; omega)
          · rw [if_neg hf, if_neg hf]
            by_cases hep : ep + 1 = enc.length
            · rw [if_pos hep, if_pos hep]
            · rw [if_neg hep, if_neg hep]
              by_cases hlt : ep + 1 < enc.length
              · rw [if_pos hlt, if_pos hlt]
                by_cases hbig :
                    out.length +
                      (((enc.getD ep 0 <<< 8) ||| enc.getD (ep + 1) 0) >>> 12 + 3) >
                      resultSize
                · rw [if_pos hbig, if_pos hbig]
                · rw [if_neg hbig, if_neg hbig]
                  split
                  · rename_i out2 hcopy
                    have hl := lzCopy_length _ _ _ _ hcopy
                    exact ih fuel2 m f (ep + 2) out2 (by omega) (by omega)
                  · rfl
              · rw [if_neg hlt, if_neg hlt]
      · rw [if_neg hg, if_neg hg]

/-- The fuel of blzEncodeLoop is semantically inert: any two fuel values
larger than the number of input bytes still to be read give the same
result, because every iteration advances the read position.  So the loop
models the Rust while loop exactly when called with rev.length + 1 fuel. -/
theorem blzEncodeLoop_fuel (rev : List Nat) :
    ∀ (fuel fuel2 pos : Nat) (st : BlzEncState),
      rev.length - pos < fuel → rev.length - pos < fuel2 →
      blzEncodeLoop rev fuel pos st = blzEncodeLoop rev fuel2 pos st := by
  intro fuel
  induction fuel with
  | zero => intro fuel2 pos st h1 h2; omega
  | succ fuel ih =>
    intro fuel2 pos st h1 h2
    match fuel2 with
    | 0 => omega
    | fuel2 + 1 =>
      rw [blzEncodeLoop]
      conv_rhs => rw [blzEncodeLoop]
      by_cases hg : pos < rev.length
      · rw [if_pos hg, if_pos hg]
        dsimp only
        split
        · rfl
        · rename_i res3 hres
          apply ih
          · split <;> omega
          · split <;> omega
      · rw [if_neg hg, if_neg hg]

theorem backrefBytes_length (pos : Nat) :
    ∀ (n : Nat) (out : List Nat), (backrefBytes out pos n).length = n := by
  intro n
  induction n with
  | zero => intro out; rfl
  | succ n ih =>
    intro out
    simp only [backrefBytes, List.length_cons, ih]

theorem lzCopy_eq_backrefBytes (pos : Nat) (hpos : 0 < pos) :
    ∀ (n : Nat) (out : List Nat), pos ≤ out.length →
      lzCopy out pos n = some (out ++ backrefBytes out pos n) := by
  intro n
  induction n with
  | zero => intro out _; simp [lzCopy, backrefBytes]
  | succ n ih =>
    intro out hle
    have hcond : 0 < pos ∧ pos ≤ out.length := ⟨hpos, hle⟩
    simp only [lzCopy, backrefBytes, if_pos hcond]
    rw [ih (out ++ [out.getD (out.length - pos) 0]) (by simp; omega)]
    simp

theorem backrefBytes_getD (pos : Nat) (hpos : 0 < pos) :
    ∀ (n : Nat) (out : List Nat), pos ≤ out.length → ∀ i, i < n →
      (out ++ backrefBytes out pos n).getD (out.length - pos + i) 0 =
        (backrefBytes out pos n).getD i 0 := by
  intro n
  induction n with
  | zero => intro out _ i hi; omega
  | succ n ih =>
    intro out hle i hi
    simp only [backrefBytes]
    match i with
    | 0 =>
      have hidx : out.length - pos < out.length := by omega
      rw [Nat.add_zero, List.getD_append _ _ _ _ hidx]
      simp
    | Nat.succ j =>
      have hstep :
          out ++ out.getD (out.length - pos) 0 ::
              backrefBytes (out ++ [out.getD (out.length - pos) 0]) pos n =
            (out ++ [out.getD (out.length - pos) 0]) ++
              backrefBytes (out ++ [out.getD (out.length - pos) 0]) pos n := by
        simp
      rw [hstep]
      have hlen2 : (out ++ [out.getD (out.length - pos) 0]).length = out.length + 1 := by
        simp
      have hre := ih (out ++ [out.getD (out.length - pos) 0])
        (by simp; omega) j (by omega)
      rw [hlen2] at hre
      have hidx2 : out.length - pos + (j + 1) = out.length + 1 - pos + j := by omega
      rw [hidx2, hre]
      simp

theorem listInfixOf_iff (pat : List Nat) :
    ∀ l : List Nat, listInfixOf pat l = true ↔ pat <:+: l := by
  intro l
  induction l with
  | nil => simp [listInfixOf, List.isEmpty_iff]
  | cons b rest ih =>
    simp only [listInfixOf, Bool.or_eq_true, List.isPrefixOf_iff_prefix, ih,
      List.infix_cons_iff]

theorem dictWriteNodes_nil {α : Type} (writeValue : ValueWriter α)
    (out : List Nat) (p : Nat) (ctx : WriteContext) :
    dictWriteNodes writeValue [] out p ctx = .ok (out, p, ctx) := rfl

/-!
## Inversion helpers for Except computations
-/

theorem except_bind_ok {α β : Type} {x : Except String α} {f : α → Except String β}
    {b : β} (h : x.bind f = .ok b) : ∃ a, x = .ok a ∧ f a = .ok b := by
  cases x with
  | error e => cases h
  | ok a => exact ⟨a, rfl, h⟩

theorem except_map_ok {α β : Type} {x : Except String α} {f : α → β} {b : β}
    (h : x.map f = .ok b) : ∃ a, x = .ok a ∧ f a = b := by
  cases x with
  | error e => cases h
  | ok a =>
    refine ⟨a, rfl, ?_⟩
    simp only [Except.map, Except.ok.injEq] at h
    exact h

theorem u32add_ok {a b c : Nat} (h : u32add a b = .ok c) : c = a + b := by
  unfold u32add at h
  split at h
  · cases h; rfl
  · cases h

theorem u32sub_ok {a b c : Nat} (h : u32sub a b = .ok c) : c = a - b ∧ b ≤ a := by
  unfold u32sub at h
  split at h
  · cases h; exact ⟨rfl, by assumption⟩
  · cases h

theorem pointerAddSigned_ok {a b c : Nat} (h : pointerAddSigned a b = .ok c) :
    c = a + b := by
  unfold pointerAddSigned at h
  split at h
  · cases h; rfl
  · cases h

/-- Success of an Except-valued mapM gives, for every output element, an
input element that produced it. -/
theorem mapM_ok_mem {α β : Type} (f : α → Except String β) :
    ∀ (xs : List α) (ys : List β), xs.mapM f = .ok ys →
      ∀ y ∈ ys, ∃ x, f x = .ok y := by
  intro xs
  induction xs with
  | nil =>
    intro ys h y hy
    simp only [List.mapM_nil, pure, Except.pure, Except.ok.injEq] at h
    subst h
    exact absurd hy (List.not_mem_nil y)
  | cons x xs ih =>
    intro ys h y hy
    rw [List.mapM_cons] at h
    simp only [bind, pure] at h
    obtain ⟨y0, hx, h2⟩ := except_bind_ok h
    obtain ⟨ys0, hxs, h3⟩ := except_bind_ok h2
    simp only [Except.pure, Except.ok.injEq] at h3
    subst h3
    rw [List.mem_cons] at hy
    rcases hy with hy | hy
    · exact ⟨x, by rw [hy]; exact hx⟩
    · exact ih ys0 hxs y hy

/-- What a successful node resolution pass guarantees, stated over the
resolved node: pointer fields survive, a zero (absent) pointer leaves the
name or value absent, and a non-zero pointer means the name was read at
file_offset + 8 + pointer and the value reader ran at
file_offset + 12 + pointer. -/
theorem resolveNode_spec {α : Type} (readValue : ValueReader α) (buf : List Nat)
    (node node2 : CgfxNode α) (h : resolveNode readValue buf node = .ok node2) :
    node2.fileOffset = node.fileOffset ∧
    node2.namePointer = node.namePointer ∧
    node2.valuePointer = node.valuePointer ∧
    (node2.namePointer = none → node2.name = none) ∧
    (∀ p, node2.namePointer = some p →
      (readStringAt buf (node2.fileOffset + 8 + p)).map some = .ok node2.name) ∧
    (node2.valuePointer = none → node2.value = none) ∧
    (∀ p, node2.valuePointer = some p →
      (readValue buf (node2.fileOffset + 12 + p)).map some = .ok node2.value) := by
  unfold resolveNode at h
  obtain ⟨nm, hn, h2⟩ := except_bind_ok h
  obtain ⟨v, hv, h3⟩ := except_map_ok h2
  subst h3
  refine ⟨rfl, rfl, rfl, ?_, ?_, ?_, ?_⟩
  · intro hnp
    simp only at hnp ⊢
    rw [hnp] at hn
    unfold resolveName at hn
    cases hn
    rfl
  · intro p hnp
    simp only at hnp ⊢
    rw [hnp] at hn
    unfold resolveName at hn
    obtain ⟨o1, ha, h4⟩ := except_bind_ok hn
    obtain ⟨off, hadd, h5⟩ := except_bind_ok h4
    rw [pointerAddSigned_ok ha] at hadd
    rw [u32add_ok hadd] at h5
    exact h5
  · intro hvp
    simp only at hvp ⊢
    rw [hvp] at hv
    unfold resolveValue at hv
    cases hv
    rfl
  · intro p hvp
    simp only at hvp ⊢
    rw [hvp] at hv
    unfold resolveValue at hv
    obtain ⟨o1, ha, h4⟩ := except_bind_ok hv
    obtain ⟨off, hadd, h5⟩ := except_bind_ok h4
    rw [pointerAddSigned_ok ha] at hadd
    rw [u32add_ok hadd] at h5
    exact h5

theorem setChk_ok {α : Type} {l : List α} {i : Nat} {v : α} {l2 : List α}
    (h : setChk l i v = .ok l2) : l2.length = l.length ∧ i < l.length := by
  unfold setChk at h
  split at h
  · cases h
    exact ⟨List.length_set l i v, by assumption⟩
  · cases h

theorem u32mul_ok {a b c : Nat} (h : u32mul a b = .ok c) :
    c = a * b ∧ a * b ≤ u32Max := by
  unfold u32mul at h
  split at h
  · cases h; exact ⟨rfl, by assumption⟩
  · cases h

theorem readU8At_isOk {buf : List Nat} {p : Nat} (h : p < buf.length) :
    readU8At buf p = .ok (buf.getD p 0) := by
  unfold readU8At
  rw [if_pos h]

theorem readU8At_ok_bound {buf : List Nat} {p : Nat} {b : Nat}
    (h : readU8At buf p = .ok b) : p < buf.length := by
  unfold readU8At at h
  split at h
  · assumption
  · cases h

/-- A successful swizzled-pixel loop wrote every pixel in bounds: the
output offset of each iterated element is below the (invariant) output
length. -/
theorem decodeSwizzledLoop_ok_offsets (fmt : PicaTextureFormat) (buf : List Nat)
    (width : Nat) :
    ∀ (items : List (Nat × Nat × Nat)) (out : List RgbaColor) (k : Nat)
      (res : List RgbaColor),
      decodeSwizzledLoop fmt buf width items out k = .ok res →
      ∀ e ∈ items, swizzleOffset width e.1 e.2.1 e.2.2 < out.length := by
  intro items
  induction items with
  | nil => intro out k res h e he; cases he
  | cons hd rest ih =>
    intro out k res h e he
    match hd with
    | (x, y, p) =>
      unfold decodeSwizzledLoop at h
      obtain ⟨yy, hyy, h2⟩ := except_bind_ok h
      obtain ⟨t, ht, h3⟩ := except_bind_ok h2
      obtain ⟨xl, hxl, h4⟩ := except_bind_ok h3
      obtain ⟨off, hoff, h5⟩ := except_bind_ok h4
      obtain ⟨px, hpx, h6⟩ := except_bind_ok h5
      obtain ⟨out2, hset, h7⟩ := except_bind_ok h6
      have hso := setChk_ok hset
      rw [List.mem_cons] at he
      rcases he with he | he
      · subst he
        have e1 := u32add_ok hyy
        have e2 := (u32mul_ok ht).1
        have e3 := u32add_ok hxl
        have e4 := u32add_ok hoff
        rw [e1] at e2
        rw [e3, e2] at e4
        unfold swizzleOffset
        simp only
        rw [← e4]
        exact hso.2
      · have := ih out2 (k + bytesPerPixel fmt) res h7 e he
        omega

/-- A successful swizzled-pixel loop read every pixel: the format unpack
succeeds at each input offset the loop visits. -/
theorem decodeSwizzledLoop_ok_reads (fmt : PicaTextureFormat) (buf : List Nat)
    (width : Nat) :
    ∀ (items : List (Nat × Nat × Nat)) (out : List RgbaColor) (k : Nat)
      (res : List RgbaColor),
      decodeSwizzledLoop fmt buf width items out k = .ok res →
      ∀ i, i < items.length →
        (decodePixel fmt buf (k + i * bytesPerPixel fmt)).isOk = true := by
  intro items
  induction items with
  | nil => intro out k res h i hi; simp at hi
  | cons hd rest ih =>
    intro out k res h i hi
    match hd with
    | (x, y, p) =>
      unfold decodeSwizzledLoop at h
      obtain ⟨yy, hyy, h2⟩ := except_bind_ok h
      obtain ⟨t, ht, h3⟩ := except_bind_ok h2
      obtain ⟨xl, hxl, h4⟩ := except_bind_ok h3
      obtain ⟨off, hoff, h5⟩ := except_bind_ok h4
      obtain ⟨px, hpx, h6⟩ := except_bind_ok h5
      obtain ⟨out2, hset, h7⟩ := except_bind_ok h6
      match i with
      | 0 =>
        simp only [Nat.zero_mul, Nat.add_zero]
        rw [hpx]
        rfl
      | Nat.succ j =>
        have := ih out2 (k + bytesPerPixel fmt) res h7 j
          (by simp at hi; omega)
        have harith : k + bytesPerPixel fmt + j * bytesPerPixel fmt =
            k + (j + 1) * bytesPerPixel fmt := by ring
        rw [harith] at this
        exact this

/-- The swizzled-pixel loop succeeds and preserves the output length when
every offset lands in bounds (the width must be positive so the checked
offset arithmetic stays inside u32 range) and every pixel read succeeds. -/
theorem decodeSwizzledLoop_ok_of (fmt : PicaTextureFormat) (buf : List Nat)
    (width : Nat) (hw : 0 < width) :
    ∀ (items : List (Nat × Nat × Nat)) (out : List RgbaColor) (k : Nat),
      (∀ e ∈ items, swizzleOffset width e.1 e.2.1 e.2.2 < out.length) →
      out.length ≤ u32Max →
      (∀ i, i < items.length →
        (decodePixel fmt buf (k + i * bytesPerPixel fmt)).isOk = true) →
      ∃ res, decodeSwizzledLoop fmt buf width items out k = .ok res ∧
        res.length = out.length := by
  intro items
  induction items with
  | nil => intro out k hoff hlen hread; exact ⟨out, rfl, rfl⟩
  | cons hd rest ih =>
    intro out k hoff hlen hread
    match hd with
    | (x, y, p) =>
      have hoffhd := hoff (x, y, p) (List.mem_cons_self _ _)
      unfold swizzleOffset at hoffhd
      simp only at hoffhd
      have hly : (y + (p - (p &&& 7)) >>> 3) * width ≤
          x + (p &&& 7) + (y + (p - (p &&& 7)) >>> 3) * width := by omega
      have hyb : y + (p - (p &&& 7)) >>> 3 ≤
          (y + (p - (p &&& 7)) >>> 3) * width := Nat.le_mul_of_pos_right _ hw
      unfold decodeSwizzledLoop
      have h1 : u32add y ((p - (p &&& 7)) >>> 3) =
          .ok (y + (p - (p &&& 7)) >>> 3) := by
        unfold u32add
        rw [if_pos (by omega)]
      have h2 : u32mul (y + (p - (p &&& 7)) >>> 3) width =
          .ok ((y + (p - (p &&& 7)) >>> 3) * width) := by
        unfold u32mul
        rw [if_pos (by omega)]
      have h3 : u32add x (p &&& 7) = .ok (x + (p &&& 7)) := by
        unfold u32add
        rw [if_pos (by omega)]
      have h4 : u32add (x + (p &&& 7)) ((y + (p - (p &&& 7)) >>> 3) * width) =
          .ok (x + (p &&& 7) + (y + (p - (p &&& 7)) >>> 3) * width) := by
        unfold u32add
        rw [if_pos (by omega)]
      dsimp only
      rw [h1]
      simp only [Except.bind]
      rw [h2]
      simp only [Except.bind]
      rw [h3]
      simp only [Except.bind]
      rw [h4]
      simp only [Except.bind]
      have hr0 := hread 0 (by simp)
      cases hpx : decodePixel fmt buf k with
      | error e =>
        rw [Nat.zero_mul, Nat.add_zero] at hr0
        rw [hpx] at hr0
        cases hr0
      | ok px =>
        have hset : setChk out (x + (p &&& 7) + (y + (p - (p &&& 7)) >>> 3) * width)
            px = .ok (out.set (x + (p &&& 7) + (y + (p - (p &&& 7)) >>> 3) * width) px) := by
          unfold setChk
          rw [if_pos hoffhd]
        have hk0 : k + 0 * bytesPerPixel fmt = k := by omega
        rw [hk0] at hr0
        simp only [Except.bind]
        rw [hset]
        simp only [Except.bind]
        have hlenset : (out.set (x + (p &&& 7) + (y + (p - (p &&& 7)) >>> 3) * width)
            px).length = out.length := List.length_set out _ px
        obtain ⟨res, hres, hreslen⟩ := ih
          (out.set (x + (p &&& 7) + (y + (p - (p &&& 7)) >>> 3) * width) px)
          (k + bytesPerPixel fmt)
          (by intro e he; rw [hlenset]; exact hoff e (List.mem_cons_of_mem _ he))
          (by rw [hlenset]; exact hlen)
          (by
            intro i hi
            have := hread (i + 1) (by simp; omega)
            have harith : k + (i + 1) * bytesPerPixel fmt =
                k + bytesPerPixel fmt + i * bytesPerPixel fmt := by ring
            rw [harith] at this
            exact this)
        refine ⟨res, ?_, by rw [hreslen, hlenset]⟩
        rw [hres]

theorem except_isOk_exists {α : Type} {x : Except String α}
    (h : x.isOk = true) : ∃ v, x = .ok v := by
  cases x with
  | error e => cases h
  | ok v => exact ⟨v, rfl⟩

theorem readU16At_isOk {buf : List Nat} {p : Nat} (h : p + 1 < buf.length) :
    (readU16At buf p).isOk = true := by
  unfold readU16At
  rw [readU8At_isOk (by omega), readU8At_isOk h]
  rfl

theorem readU16At_ok_bound {buf : List Nat} {p : Nat}
    (h : (readU16At buf p).isOk = true) : p + 1 < buf.length := by
  unfold readU16At at h
  obtain ⟨v, hv⟩ := except_isOk_exists h
  obtain ⟨a, ha, h2⟩ := except_bind_ok hv
  obtain ⟨b, hb, h3⟩ := except_map_ok h2
  exact readU8At_ok_bound hb

/-- A pixel unpack of any supported linear format succeeds when its last
input byte index is inside the buffer. -/
theorem decodePixel_isOk (fmt : PicaTextureFormat)
    (hsup : fmt ∈ supportedLinearFormats) (buf : List Nat) (off : Nat)
    (h : neededIndex fmt off < buf.length) : (decodePixel fmt buf off).isOk = true := by
  unfold supportedLinearFormats at hsup
  fin_cases hsup <;>
    simp only [decodePixel, neededIndex] at h ⊢
  · rw [readU8At_isOk h, readU8At_isOk (by omega), readU8At_isOk (by omega),
      readU8At_isOk (by omega)]
    rfl
  · obtain ⟨v, hv⟩ := except_isOk_exists (readU16At_isOk h)
    rw [hv]
    rfl
  · obtain ⟨v, hv⟩ := except_isOk_exists (readU16At_isOk h)
    rw [hv]
    rfl
  · obtain ⟨v, hv⟩ := except_isOk_exists (readU16At_isOk h)
    rw [hv]
    rfl
  · rw [readU8At_isOk h]
    rfl
  · rw [readU8At_isOk h]
    rfl
  · rw [readU8At_isOk h]
    rfl
  · rw [readU8At_isOk h]
    rfl
  · rw [readU8At_isOk (by omega), readU8At_isOk h]
    rfl
  · rw [readU8At_isOk h]
    rfl

/-- A successful pixel unpack keeps its last input byte index inside the
buffer. -/
theorem decodePixel_ok_bound (fmt : PicaTextureFormat)
    (hsup : fmt ∈ supportedLinearFormats) (buf : List Nat) (off : Nat)
    (h : (decodePixel fmt buf off).isOk = true) :
    neededIndex fmt off < buf.length := by
  unfold supportedLinearFormats at hsup
  obtain ⟨v, hv⟩ := except_isOk_exists h
  fin_cases hsup <;> simp only [decodePixel, neededIndex] at hv ⊢
  · obtain ⟨a, ha, h2⟩ := except_bind_ok hv
    exact readU8At_ok_bound ha
  · obtain ⟨a, ha, h2⟩ := except_map_ok hv
    exact readU16At_ok_bound (by rw [ha]; rfl)
  · obtain ⟨a, ha, h2⟩ := except_map_ok hv
    exact readU16At_ok_bound (by rw [ha]; rfl)
  · obtain ⟨a, ha, h2⟩ := except_map_ok hv
    exact readU16At_ok_bound (by rw [ha]; rfl)
  · obtain ⟨a, ha, h2⟩ := except_map_ok hv
    exact readU8At_ok_bound ha
  · obtain ⟨a, ha, h2⟩ := except_map_ok hv
    exact readU8At_ok_bound ha
  · obtain ⟨a, ha, h2⟩ := except_map_ok hv
    exact readU8At_ok_bound ha
  · obtain ⟨a, ha, h2⟩ := except_map_ok hv
    exact readU8At_ok_bound ha
  · obtain ⟨a, ha, h2⟩ := except_bind_ok hv
    obtain ⟨b, hb, h3⟩ := except_map_ok h2
    exact readU8At_ok_bound hb
  · obtain ⟨a, ha, h2⟩ := except_map_ok hv
    exact readU8At_ok_bound ha

/-- Every entry of the swizzle permutation is below 64. -/
theorem swizzleLut_bound : ∀ p ∈ swizzleLut, p < 64 := by decide

/-- Shape of pixel-stream elements: a tile origin pair of multiples of 8
below the rounded-up tile counts, with a permutation entry. -/
theorem pixelStream_char (w h : Nat) (e : Nat × Nat × Nat)
    (he : e ∈ pixelStream w h) :
    ∃ i j p, e = (8 * i, 8 * j, p) ∧ i < (w + 7) / 8 ∧ j < (h + 7) / 8 ∧
      p ∈ swizzleLut := by
  unfold pixelStream tileOrigins at he
  rw [List.mem_flatMap] at he
  obtain ⟨xy, hxy, he2⟩ := he
  rw [List.mem_flatMap] at hxy
  obtain ⟨j, hj, hxy2⟩ := hxy
  rw [List.mem_map] at hxy2
  obtain ⟨i, hi, hxy3⟩ := hxy2
  rw [List.mem_map] at he2
  obtain ⟨p, hp, he3⟩ := he2
  rw [List.mem_range] at hi hj
  refine ⟨i, j, p, ?_, hi, hj, hp⟩
  rw [← he3, ← hxy3]
  simp [Nat.mul_comm]

/-- Conversely, every such triple occurs in the pixel stream. -/
theorem pixelStream_mem (w h i j p : Nat) (hi : i < (w + 7) / 8)
    (hj : j < (h + 7) / 8) (hp : p ∈ swizzleLut) :
    (8 * i, 8 * j, p) ∈ pixelStream w h := by
  unfold pixelStream tileOrigins
  rw [List.mem_flatMap]
  refine ⟨(8 * i, 8 * j), ?_, ?_⟩
  · rw [List.mem_flatMap]
    refine ⟨j, List.mem_range.mpr hj, ?_⟩
    rw [List.mem_map]
    exact ⟨i, List.mem_range.mpr hi, by simp [Nat.mul_comm]⟩
  · rw [List.mem_map]
    exact ⟨p, hp, rfl⟩

theorem sum_map_const {α : Type} (l : List α) (c : Nat) :
    (l.map (fun _ => c)).sum = l.length * c := by
  induction l with
  | nil => simp
  | cons hd tl ih => simp [ih]; ring

/-- The pixel stream visits tile-count * 64 pixels. -/
theorem pixelStream_length (w h : Nat) :
    (pixelStream w h).length = (w + 7) / 8 * ((h + 7) / 8) * 64 := by
  unfold pixelStream tileOrigins
  rw [List.length_flatMap]
  have hinner : ∀ xy : Nat × Nat,
      (List.length ∘ fun xy : Nat × Nat => swizzleLut.map
        (fun p => (xy.1, xy.2, p))) xy = 64 := by
    intro xy
    simp [swizzleLut]
  have hmapeq : (List.map (List.length ∘ fun xy : Nat × Nat =>
      swizzleLut.map (fun p => (xy.1, xy.2, p)))
        ((List.range ((h + 7) / 8)).flatMap (fun j =>
          (List.range ((w + 7) / 8)).map (fun i => (i * 8, j * 8))))) =
      List.map (fun _ => 64)
        ((List.range ((h + 7) / 8)).flatMap (fun j =>
          (List.range ((w + 7) / 8)).map (fun i => (i * 8, j * 8)))) := by
    apply List.map_congr_left
    intro xy _
    exact hinner xy
  rw [hmapeq, sum_map_const, List.length_flatMap]
  have hmapeq2 : List.map (List.length ∘ fun j =>
      (List.range ((w + 7) / 8)).map (fun i => (i * 8, j * 8)))
        (List.range ((h + 7) / 8)) =
      List.map (fun _ => (w + 7) / 8) (List.range ((h + 7) / 8)) := by
    apply List.map_congr_left
    intro j _
    simp
  rw [hmapeq2, sum_map_const, List.length_range]
  ring

/-- A successful swizzled-pixel loop preserves the output length. -/
theorem decodeSwizzledLoop_ok_length (fmt : PicaTextureFormat) (buf : List Nat)
    (width : Nat) :
    ∀ (items : List (Nat × Nat × Nat)) (out : List RgbaColor) (k : Nat)
      (res : List RgbaColor),
      decodeSwizzledLoop fmt buf width items out k = .ok res →
      res.length = out.length := by
  intro items
  induction items with
  | nil =>
    intro out k res h
    unfold decodeSwizzledLoop at h
    cases h
    rfl
  | cons hd rest ih =>
    intro out k res h
    match hd with
    | (x, y, p) =>
      unfold decodeSwizzledLoop at h
      obtain ⟨yy, hyy, h2⟩ := except_bind_ok h
      obtain ⟨t, ht, h3⟩ := except_bind_ok h2
      obtain ⟨xl, hxl, h4⟩ := except_bind_ok h3
      obtain ⟨off, hoff, h5⟩ := except_bind_ok h4
      obtain ⟨px, hpx, h6⟩ := except_bind_ok h5
      obtain ⟨out2, hset, h7⟩ := except_bind_ok h6
      rw [ih out2 (k + bytesPerPixel fmt) res h7]
      exact (setChk_ok hset).1

/-- Bound used for the sufficiency direction: the byte index pixel i of n
touches stays below the format byte requirement for n pixels. -/
theorem neededIndex_lt (fmt : PicaTextureFormat)
    (hsup : fmt ∈ supportedLinearFormats) (i n L : Nat) (hi : i < n)
    (hreq : requiredBytes fmt n ≤ L) :
    neededIndex fmt (i * bytesPerPixel fmt) < L := by
  unfold supportedLinearFormats at hsup
  fin_cases hsup <;>
    simp only [neededIndex, requiredBytes, bytesPerPixel,
      PicaTextureFormat.getBpp, Nat.max_def] at hreq ⊢ <;>
    norm_num at hreq ⊢ <;>
    omega

/-- Bound used for the necessity direction: when the last of n pixels
reads in bounds, the buffer meets the format byte requirement. -/
theorem requiredBytes_of_needed (fmt : PicaTextureFormat)
    (hsup : fmt ∈ supportedLinearFormats) (n L : Nat) (hn : 0 < n)
    (h : neededIndex fmt ((n - 1) * bytesPerPixel fmt) < L) :
    requiredBytes fmt n ≤ L := by
  unfold supportedLinearFormats at hsup
  fin_cases hsup <;>
    simp only [neededIndex, requiredBytes, bytesPerPixel,
      PicaTextureFormat.getBpp, Nat.max_def] at h ⊢ <;>
    norm_num at h ⊢ <;>
    omega

/-- C10 (amended): for every supported non-ETC1 format, when width and
height are multiples of 8 and the input buffer covers every pixel of
every 8x8 tile at the format byte cost (with width * height inside u32
range, as the allocation demands), decode_swizzled_buffer returns exactly
width * height pixels; when width and height are positive and either is
not a multiple of 8 it panics (out-of-bounds indexing) instead of
returning an error value; and any successful call returns exactly
width * height pixels and, when that count is positive, implies the
buffer met the format byte requirement (so an undersized buffer also
panics).  When width or height is 0, however, the function returns an
empty buffer without panicking, whatever the other dimension. -/
theorem decode_swizzled_linear_formats (fmt : PicaTextureFormat)
    (hsup : fmt ∈ supportedLinearFormats) (buf : List Nat) (w h : Nat) :
    (w % 8 = 0 → h % 8 = 0 → w * h ≤ u32Max →
      requiredBytes fmt (w * h) ≤ buf.length →
      (decodeSwizzledBuffer buf fmt w h).map List.length = .ok (w * h)) ∧
    (0 < w → 0 < h → (w % 8 ≠ 0 ∨ h % 8 ≠ 0) →
      ∀ out, decodeSwizzledBuffer buf fmt w h ≠ .ok out) ∧
    (∀ out, decodeSwizzledBuffer buf fmt w h = .ok out →
      out.length = w * h ∧ (0 < w * h → requiredBytes fmt (w * h) ≤ buf.length)) := by
  have hne : ¬ (fmt = PicaTextureFormat.ETC1A4 ∨ fmt = PicaTextureFormat.ETC1) := by
    unfold supportedLinearFormats at hsup
    fin_cases hsup <;> simp
  have hdisp : decodeSwizzledBuffer buf fmt w h =
      (u32mul w h).bind (fun total =>
        decodeSwizzledLoop fmt buf w (pixelStream w h)
          (List.replicate total rgbaDefault) 0) := by
    unfold decodeSwizzledBuffer
    rw [if_neg hne]
  have hstreamlen : (pixelStream w h).length = (w + 7) / 8 * ((h + 7) / 8) * 64 :=
    pixelStream_length w h
  -- the panic direction
  have hpanic : 0 < w → 0 < h → (w % 8 ≠ 0 ∨ h % 8 ≠ 0) →
      ∀ out, decodeSwizzledBuffer buf fmt w h ≠ .ok out := by
    intro hw hh hnm out hok
    rw [hdisp] at hok
    obtain ⟨total, hmul, hloop⟩ := except_bind_ok hok
    obtain ⟨htot, hmax⟩ := u32mul_ok hmul
    have hbadmem : (8 * ((w + 7) / 8 - 1), 8 * ((h + 7) / 8 - 1), 63) ∈
        pixelStream w h := by
      refine pixelStream_mem w h _ _ 63 (by omega) (by omega) (by decide)
    have hoffbad := decodeSwizzledLoop_ok_offsets fmt buf w
      (pixelStream w h) (List.replicate total rgbaDefault) 0 out hloop
      _ hbadmem
    unfold swizzleOffset at hoffbad
    simp only [List.length_replicate] at hoffbad
    have hlx : (63 : Nat) &&& 7 = 7 := by decide
    rw [hlx] at hoffbad
    have hly : ((63 : Nat) - 7) >>> 3 = 7 := by decide
    rw [hly, htot] at hoffbad
    -- the corner pixel of the last tile has offset at least w * h
    have hwa : w ≤ 8 * ((w + 7) / 8) := by omega
    have hha : h ≤ 8 * ((h + 7) / 8) := by omega
    rcases hnm with hnm | hnm
    · have hwa2 : w + 1 ≤ 8 * ((w + 7) / 8) := by omega
      have hyb : h - 1 ≤ 8 * ((h + 7) / 8 - 1) + 7 := by omega
      have hmul2 : (h - 1) * w ≤ (8 * ((h + 7) / 8 - 1) + 7) * w :=
        Nat.mul_le_mul_right w hyb
      have hfin : w * h ≤ 8 * ((w + 7) / 8 - 1) + 7 +
          (8 * ((h + 7) / 8 - 1) + 7) * w := by
        have hsub : (h - 1) * w = h * w - w := Nat.sub_one_mul h w
        have hwh : w ≤ h * w := Nat.le_mul_of_pos_left w hh
        have hcomm : w * h = h * w := Nat.mul_comm w h
        omega
      omega
    · have hha2 : h + 1 ≤ 8 * ((h + 7) / 8) := by omega
      have hyb : h ≤ 8 * ((h + 7) / 8 - 1) + 7 := by omega
      have hmul2 : h * w ≤ (8 * ((h + 7) / 8 - 1) + 7) * w :=
        Nat.mul_le_mul_right w hyb
      have hfin : w * h ≤ 8 * ((w + 7) / 8 - 1) + 7 +
          (8 * ((h + 7) / 8 - 1) + 7) * w := by
        have hcomm : w * h = h * w := Nat.mul_comm w h
        omega
      omega
  refine ⟨?_, hpanic, ?_⟩
  · -- the sufficiency direction
    intro hw8 hh8 hmax hreq
    rw [hdisp]
    by_cases hzero : w = 0 ∨ h = 0
    · have hempty : pixelStream w h = [] := by
        unfold pixelStream tileOrigins
        rcases hzero with hz | hz <;> subst hz <;> simp
      have hmul : u32mul w h = .ok 0 := by
        unfold u32mul
        rcases hzero with hz | hz <;> subst hz <;> simp [u32Max]
      rw [hmul]
      simp only [Except.bind]
      rw [hempty]
      unfold decodeSwizzledLoop
      simp only [Except.map, List.length_replicate]
      rcases hzero with hz | hz <;> subst hz <;> simp
    · push_neg at hzero
      have hw : 0 < w := Nat.pos_of_ne_zero hzero.1
      have hh : 0 < h := Nat.pos_of_ne_zero hzero.2
      obtain ⟨a, ha⟩ : 8 ∣ w := Nat.dvd_of_mod_eq_zero hw8
      obtain ⟨b, hb⟩ : 8 ∣ h := Nat.dvd_of_mod_eq_zero hh8
      have hmul : u32mul w h = .ok (w * h) := by
        unfold u32mul
        rw [if_pos hmax]
      rw [hmul]
      simp only [Except.bind]
      obtain ⟨res, hres, hlen⟩ := decodeSwizzledLoop_ok_of fmt buf w hw
        (pixelStream w h) (List.replicate (w * h) rgbaDefault) 0
        (by
          intro e he
          obtain ⟨i, j, p, he2, hi, hj, hp⟩ := pixelStream_char w h e he
          subst he2
          unfold swizzleOffset
          simp only [List.length_replicate]
          have hp64 := swizzleLut_bound p hp
          have hlx : p &&& 7 ≤ 7 := Nat.and_le_right
          have hly : (p - (p &&& 7)) >>> 3 ≤ 7 := by
            rw [Nat.shiftRight_eq_div_pow]
            omega
          have hia : i < a := by omega
          have hjb : j < b := by omega
          have hxb : 8 * i + (p &&& 7) < w := by omega
          have hyb : 8 * j + (p - (p &&& 7)) >>> 3 ≤ h - 1 := by omega
          have hmul2 : (8 * j + (p - (p &&& 7)) >>> 3) * w ≤ (h - 1) * w :=
            Nat.mul_le_mul_right w hyb
          have hsub : (h - 1) * w = h * w - w := Nat.sub_one_mul h w
          have hwh : w ≤ h * w := Nat.le_mul_of_pos_left w hh
          have hcomm : w * h = h * w := Nat.mul_comm w h
          omega)
        (by simp only [List.length_replicate]; exact hmax)
        (by
          intro i hi
          rw [hstreamlen] at hi
          have hia : (w + 7) / 8 = a := by omega
          have hjb : (h + 7) / 8 = b := by omega
          rw [hia, hjb] at hi
          have hiwh : i < w * h := by
            have : a * b * 64 = w * h := by rw [ha, hb]; ring
            omega
          simp only [Nat.zero_add]
          exact decodePixel_isOk fmt hsup buf (i * bytesPerPixel fmt)
            (neededIndex_lt fmt hsup i (w * h) buf.length hiwh hreq))
      rw [hres]
      simp only [Except.map, List.length_replicate] at hlen ⊢
      rw [hlen]
  · -- any success yields w * h pixels from a sufficient buffer
    intro out hok
    have hok2 := hok
    rw [hdisp] at hok2
    obtain ⟨total, hmul, hloop⟩ := except_bind_ok hok2
    obtain ⟨htot, hmax⟩ := u32mul_ok hmul
    have hlen := decodeSwizzledLoop_ok_length fmt buf w
      (pixelStream w h) (List.replicate total rgbaDefault) 0 out hloop
    simp only [List.length_replicate] at hlen
    refine ⟨by omega, ?_⟩
    intro hpos
    have hw : 0 < w := by
      rcases Nat.eq_zero_or_pos w with hz | hz
      · subst hz; simp at hpos
      · exact hz
    have hh : 0 < h := by
      rcases Nat.eq_zero_or_pos h with hz | hz
      · subst hz; simp at hpos
      · exact hz
    have hw8 : w % 8 = 0 := by
      by_contra hc
      exact hpanic hw hh (Or.inl hc) out hok
    have hh8 : h % 8 = 0 := by
      by_contra hc
      exact hpanic hw hh (Or.inr hc) out hok
    obtain ⟨a, ha⟩ : 8 ∣ w := Nat.dvd_of_mod_eq_zero hw8
    obtain ⟨b, hb⟩ : 8 ∣ h := Nat.dvd_of_mod_eq_zero hh8
    have hcount : (pixelStream w h).length = w * h := by
      rw [hstreamlen]
      have hia : (w + 7) / 8 = a := by omega
      have hjb : (h + 7) / 8 = b := by omega
      rw [hia, hjb, ha, hb]
      ring
    have hread := decodeSwizzledLoop_ok_reads fmt buf w
      (pixelStream w h) (List.replicate total rgbaDefault) 0 out hloop
      (w * h - 1) (by omega)
    simp only [Nat.zero_add] at hread
    exact requiredBytes_of_needed fmt hsup (w * h) buf.length hpos
      (decodePixel_ok_bound fmt hsup buf ((w * h - 1) * bytesPerPixel fmt) hread)

/-- Witness for the amended C10: an 8x8 RGBA8 texture of 256 input bytes
decodes to 64 pixels. -/
theorem decode_swizzled_linear_formats_witness :
    (decodeSwizzledBuffer (List.replicate 256 7) PicaTextureFormat.RGBA8 8 8).map
      List.length = .ok (8 * 8) := by
  have h := decode_swizzled_linear_formats PicaTextureFormat.RGBA8 (by decide)
    (List.replicate 256 7) 8 8
  exact h.1 (by decide) (by decide) (by decide) (by simp [requiredBytes])

/-- Counterexample to C10 as stated: with width 3 (not a multiple of 8)
and height 0, decode_swizzled_buffer neither panics nor errors; it
returns the empty pixel buffer, because the tile loops iterate zero
times.  The claim says the function panics whenever width or height is
not a multiple of 8. -/
theorem decode_swizzled_zero_height_counterexample :
    decodeSwizzledBuffer [] PicaTextureFormat.L8 3 0 = .ok [] ∧ (3 : Nat) % 8 ≠ 0 := by
  constructor
  · rfl
  · decide

/-- C9: each channel of a decoded ETC1 pixel is the clamped (saturated)
sum of the base channel and the intensity-table modifier: saturate maps
any i32 onto [0, 255] by clamping, never by wrapping modulo 256, so base
250 with modifier 183 yields 255 and not 177. -/
theorem etc1_pixel_saturation (base : RgbaColor) (x y blk tbl : Nat)
    (htbl : tbl < 8) (hx : x < 4) (hy : y < 4) :
    decodeEtc1Pixel base x y blk tbl =
      .ok ⟨saturate (base.r + etcModifier blk tbl (x * 4 + y)),
        saturate (base.g + etcModifier blk tbl (x * 4 + y)),
        saturate (base.b + etcModifier blk tbl (x * 4 + y)), 255⟩ ∧
    (∀ v : Int, saturate v = (max 0 (min 255 v)).toNat) ∧
    saturate ((250 : Int) + 183) = 255 ∧
    ((250 + 183) % 256 : Nat) = 177 ∧
    saturate ((250 : Int) + 183) ≠ 177 := by
  refine ⟨?_, ?_, by decide, by decide, by decide⟩
  · unfold decodeEtc1Pixel
    rw [if_neg (by omega : ¬ tbl ≥ 8), if_neg (by omega : ¬ 24 ≤ x * 4 + y)]
  · intro v
    unfold saturate
    split
    · omega
    · split
      · omega
      · omega

/-- Witness for C9 at base red 250, table row 7 and a block whose pixel 0
selects the +183 modifier. -/
theorem etc1_pixel_saturation_witness :
    decodeEtc1Pixel ⟨250, 0, 0, 255⟩ 0 0 16777216 7 =
      .ok ⟨saturate (250 + etcModifier 16777216 7 (0 * 4 + 0)),
        saturate (0 + etcModifier 16777216 7 (0 * 4 + 0)),
        saturate (0 + etcModifier 16777216 7 (0 * 4 + 0)), 255⟩ ∧
    (∀ v : Int, saturate v = (max 0 (min 255 v)).toNat) ∧
    saturate ((250 : Int) + 183) = 255 ∧
    ((250 + 183) % 256 : Nat) = 177 ∧
    saturate ((250 : Int) + 183) ≠ 177 := by
  have h := etc1_pixel_saturation ⟨250, 0, 0, 255⟩ 0 0 16777216 7
    (by decide) (by decide) (by decide)
  exact h

/-- C1: the claimed round-trip fails on the code.  At the 32-zero-byte
buffer, blz_encode succeeds but emits the compressed stream without the
final byte reversal the decoder undoes, so blz_decode hard-fails on
encode's own output instead of returning the buffer; and on the empty
buffer blz_encode itself panics in the unimplemented incompressible-input
path, so decode(encode B) = B does not hold for every byte buffer B. -/
theorem blz_roundtrip_fails_on_zero_buffer :
    (blzEncode (List.replicate 32 0)).bind blzDecode =
      Except.error "Decompressed byte length doesn't match expected length" ∧
    (blzEncode (List.replicate 32 0)).isOk = true ∧
    blzEncode [] = Except.error "not yet implemented" := by
  refine ⟨by decide, by decide, by decide⟩

/-- C4: blz_decode does not fail when the footer-length byte is outside
[8, 11]: the assert on blz.rs line 58 tests 8 <= h || h <= 11, which every
value satisfies, so this 24-byte input with footer-length byte 12 passes
all length checks and decodes successfully. -/
theorem blz_decode_accepts_footer_length_12 :
    blzBadFooterInput.getD (blzBadFooterInput.length - 5) 0 = 12 ∧
    ¬ (8 ≤ 12 ∧ 12 ≤ 11) ∧
    blzBadFooterInput.length % 4 = 0 ∧ 8 ≤ blzBadFooterInput.length ∧
    (blzDecode blzBadFooterInput).isOk = true := by
  refine ⟨by decide, by decide, by decide, by decide, by decide⟩

/-- C5: a set flag bit makes blz_decode consume a 2-byte token whose first
byte is the high byte of raw = b1 lsl 8 or b2, append length =
(raw lsr 12) + 3 bytes copied one at a time from position =
(raw land 0xFFF) + 3 places before the current end of the output, and each
appended byte equals the byte position places before it in the extended
output, so a copy longer than position repeats bytes the copy itself just
wrote. -/
theorem blz_decode_backreference_step (enc : List Nat)
    (resultSize fuel mask flags encPos : Nat) (out : List Nat) (b1 b2 : Nat)
    (hrun : out.length < resultSize)
    (hmask : mask >>> 1 ≠ 0)
    (hflag : flags &&& (mask >>> 1) ≠ 0)
    (hb : encPos + 1 < enc.length)
    (hb1 : enc.getD encPos 0 = b1)
    (hb2 : enc.getD (encPos + 1) 0 = b2)
    (hfit : out.length + (((b1 <<< 8) ||| b2) >>> 12 + 3) ≤ resultSize)
    (hpos : (((b1 <<< 8) ||| b2) &&& 4095) + 3 ≤ out.length) :
    blzDecodeLoop enc resultSize (fuel + 1) mask flags encPos out =
      blzDecodeLoop enc resultSize fuel (mask >>> 1) flags (encPos + 2)
        (out ++ backrefBytes out ((((b1 <<< 8) ||| b2) &&& 4095) + 3)
          (((b1 <<< 8) ||| b2) >>> 12 + 3)) ∧
    (backrefBytes out ((((b1 <<< 8) ||| b2) &&& 4095) + 3)
        (((b1 <<< 8) ||| b2) >>> 12 + 3)).length =
      ((b1 <<< 8) ||| b2) >>> 12 + 3 ∧
    (∀ i, i < ((b1 <<< 8) ||| b2) >>> 12 + 3 →
      (out ++ backrefBytes out ((((b1 <<< 8) ||| b2) &&& 4095) + 3)
          (((b1 <<< 8) ||| b2) >>> 12 + 3)).getD
        (out.length - ((((b1 <<< 8) ||| b2) &&& 4095) + 3) + i) 0 =
      (backrefBytes out ((((b1 <<< 8) ||| b2) &&& 4095) + 3)
          (((b1 <<< 8) ||| b2) >>> 12 + 3)).getD i 0) := by
  subst hb1
  subst hb2
  set raw := (enc.getD encPos 0 <<< 8) ||| enc.getD (encPos + 1) 0 with hraw
  refine ⟨?_, backrefBytes_length _ _ _, ?_⟩
  · rw [blzDecodeLoop]
    rw [if_pos hrun]
    simp only [if_neg hmask]
    rw [if_neg hflag]
    rw [if_neg (by omega : ¬ encPos + 1 = enc.length)]
    rw [if_pos hb]
    rw [if_neg (by omega : ¬ out.length + (raw >>> 12 + 3) > resultSize)]
    have hcopy := lzCopy_eq_backrefBytes ((raw &&& 4095) + 3) (by omega)
      (raw >>> 12 + 3) out (by omega)
    rw [hcopy]
  · intro i hi
    exact backrefBytes_getD _ (by omega) _ out (by omega) i hi

/-- Witness for C5 at a concrete state: token bytes 0x10, 0x00 give
raw = 0x1000, length 4 and position 3 over the output [7, 8, 9]. -/
theorem blz_decode_backreference_step_witness :
    blzDecodeLoop [16, 0, 5] 7 9 4 2 0 [7, 8, 9] =
      blzDecodeLoop [16, 0, 5] 7 8 2 2 2 ([7, 8, 9] ++ backrefBytes [7, 8, 9] 3 4) ∧
    (backrefBytes [7, 8, 9] 3 4).length = 4 ∧
    (∀ i, i < 4 →
      ([7, 8, 9] ++ backrefBytes [7, 8, 9] 3 4).getD (3 - 3 + i) 0 =
      (backrefBytes [7, 8, 9] 3 4).getD i 0) := by
  have h := blz_decode_backreference_step [16, 0, 5] 7 8 4 2 0 [7, 8, 9] 16 0
    (by decide) (by decide) (by decide) (by decide) rfl rfl (by decide) (by decide)
  exact h

/-- C2: on any successful dictionary read, every node with a non-zero
name pointer carries the NUL-terminated string read at the absolute
position node_file_offset + 8 + name_pointer, every node with a non-zero
value pointer carries the result of the value reader invoked at
node_file_offset + 12 + value_pointer, and a zero (absent) pointer leaves
the name or value absent. -/
theorem dict_reader_resolves_pointers {α : Type} (readValue : ValueReader α)
    (buf : List Nat) (startPos : Nat) (dict : CgfxDict α)
    (h : dictFromBuffer readValue buf startPos = .ok dict) :
    ∀ node ∈ dict.nodes,
      (node.namePointer = none → node.name = none) ∧
      (∀ p, node.namePointer = some p →
        (readStringAt buf (node.fileOffset + 8 + p)).map some = .ok node.name) ∧
      (node.valuePointer = none → node.value = none) ∧
      (∀ p, node.valuePointer = some p →
        (readValue buf (node.fileOffset + 12 + p)).map some = .ok node.value) := by
  intro node hmem
  unfold dictFromBuffer at h
  obtain ⟨mp, hmp, h2⟩ := except_bind_ok h
  obtain ⟨tl, htl, h3⟩ := except_bind_ok h2
  obtain ⟨vc, hvc, h4⟩ := except_bind_ok h3
  obtain ⟨cnt, hcnt, h5⟩ := except_bind_ok h4
  obtain ⟨nodes, hnodes, h6⟩ := except_bind_ok h5
  obtain ⟨resolved, hres, h7⟩ := except_map_ok h6
  have hdictnodes : dict.nodes = resolved := by rw [← h7]
  rw [hdictnodes] at hmem
  obtain ⟨raw, hraw⟩ := mapM_ok_mem (resolveNode readValue buf) nodes.1 resolved hres node hmem
  have hspec := resolveNode_spec readValue buf raw node hraw
  exact ⟨hspec.2.2.2.1, hspec.2.2.2.2.1, hspec.2.2.2.2.2.1, hspec.2.2.2.2.2.2⟩

/-- Witness for C2 on dictDemoBuf: the single node resolves its name from
absolute position 12 + 8 + 16. -/
theorem dict_reader_resolves_pointers_witness :
    (readStringAt dictDemoBuf (12 + 8 + 16)).map some = .ok dictDemoNode.name := by
  have h := dict_reader_resolves_pointers unitReader dictDemoBuf 0
    ⟨[68, 73, 67, 84], 28, 0, [dictDemoNode]⟩ rfl dictDemoNode (by simp)
  exact h.2.1 16 rfl

/-- C6: CgfxDict::to_writer hard-fails whenever the number of nodes
differs from values_count + 1 (the assert at bcres.rs line 213); the side
condition only says the node count is in u32 range, as it is for any
dictionary the program can build.  The node array is never truncated or
padded: the assert admits exactly the dictionaries whose node count
matches, and the write loop then emits every node. -/
theorem dict_to_writer_count_mismatch_fails {α : Type} (writeValue : ValueWriter α)
    (dict : CgfxDict α) (out : List Nat) (p : Nat) (ctx : WriteContext)
    (hlen : dict.nodes.length ≤ u32Max)
    (hne : dict.nodes.length ≠ dict.valuesCount + 1) :
    (dictToWriter writeValue dict out p ctx).isOk = false := by
  unfold dictToWriter
  unfold u32add
  by_cases hov : dict.valuesCount + 1 ≤ u32Max
  · rw [if_pos hov]
    have hmod : dict.nodes.length % 4294967296 = dict.nodes.length :=
      Nat.mod_eq_of_lt (by unfold u32Max at hlen; omega)
    have hcond : dict.valuesCount + 1 ≠ dict.nodes.length % 4294967296 := by
      rw [hmod]; omega
    simp only [Except.bind, if_pos hcond, Except.isOk, Except.toBool]
  · rw [if_neg hov]
    simp only [Except.bind, Except.isOk, Except.toBool]

/-- Witness for C6: a dictionary declaring values_count 5 with an empty
node array is rejected by the writer. -/
theorem dict_to_writer_count_mismatch_fails_witness :
    (dictToWriter unitWriter
      (⟨[68, 73, 67, 84], 0, 5, []⟩ : CgfxDict Unit) [] 0 WriteContext.new).isOk
      = false :=
  dict_to_writer_count_mismatch_fails unitWriter ⟨[68, 73, 67, 84], 0, 5, []⟩
    [] 0 WriteContext.new (by decide) (by decide)

/-- C8: add_string leaves the pool untouched when the string occurs in it
as a contiguous substring, otherwise appends exactly the string plus one
NUL byte (and touches nothing else); hence adding the same string twice
never grows the pool, and adding any substring of an already-added string
is a no-op. -/
theorem write_context_add_string_pooling (ctx : WriteContext) (s t : List Nat) :
    (listInfixOf s ctx.stringSection = true → ctx.addString s = ctx) ∧
    (listInfixOf s ctx.stringSection = false →
      (ctx.addString s).stringSection = ctx.stringSection ++ s ++ [0] ∧
      (ctx.addString s).stringReferences = ctx.stringReferences ∧
      (ctx.addString s).imageSection = ctx.imageSection ∧
      (ctx.addString s).imageReferences = ctx.imageReferences) ∧
    (ctx.addString s).addString s = ctx.addString s ∧
    (t <:+: s → (ctx.addString s).addString t = ctx.addString s) := by
  have happend : ∀ u : List Nat, u <:+: s →
      listInfixOf u (ctx.stringSection ++ s ++ [0]) = true := by
    intro u hu
    rw [listInfixOf_iff]
    exact hu.trans ⟨ctx.stringSection, [0], rfl⟩
  have hyes : ∀ (c : WriteContext) (u : List Nat),
      listInfixOf u c.stringSection = true → c.addString u = c := by
    intro c u hu
    unfold WriteContext.addString
    rw [if_pos hu]
  have hno : ∀ (c : WriteContext) (u : List Nat),
      listInfixOf u c.stringSection = false →
      c.addString u = { c with stringSection := c.stringSection ++ u ++ [0] } := by
    intro c u hu
    unfold WriteContext.addString
    rw [if_neg (by rw [hu]; exact Bool.false_ne_true)]
  refine ⟨hyes ctx s, ?_, ?_, ?_⟩
  · intro hout
    rw [hno ctx s hout]
    exact ⟨rfl, rfl, rfl, rfl⟩
  · by_cases hin : listInfixOf s ctx.stringSection = true
    · rw [hyes ctx s hin, hyes ctx s hin]
    · rw [hno ctx s (Bool.not_eq_true _ ▸ hin)]
      exact hyes _ s (happend s (List.infix_refl s))
  · intro hts
    by_cases hin : listInfixOf s ctx.stringSection = true
    · rw [hyes ctx s hin]
      have htin : listInfixOf t ctx.stringSection = true := by
        rw [listInfixOf_iff] at hin ⊢
        exact hts.trans hin
      exact hyes ctx t htin
    · rw [hno ctx s (Bool.not_eq_true _ ▸ hin)]
      exact hyes _ t (happend t hts)

/-- What a successful slot-table loop read guarantees: one pair per slot,
the count from the pair start, and a non-zero raw offset value resolved to
pair_start + 4 + raw, the position of the offset field itself plus the raw
value (a zero raw value is the absent sentinel). -/
theorem readDictRefsLoop_spec (buf : List Nat) :
    ∀ (n p : Nat) (refs : List (Nat × Option Nat)),
      readDictRefsLoop buf n p = .ok refs →
      refs.length = n ∧
      ∀ i, i < n → ∀ cnt raw, readU32ChkAt buf (p + 8 * i) = .ok cnt →
        readU32ChkAt buf (p + 8 * i + 4) = .ok raw →
        refs.getD i (0, none) =
          (cnt, if raw = 0 then none else some (p + 8 * i + 4 + raw)) := by
  intro n
  induction n with
  | zero =>
    intro p refs h
    unfold readDictRefsLoop at h
    cases h
    exact ⟨rfl, by intro i hi; omega⟩
  | succ n ih =>
    intro p refs h
    unfold readDictRefsLoop at h
    obtain ⟨count, hcount, h2⟩ := except_bind_ok h
    obtain ⟨optPtr, hptr, h3⟩ := except_bind_ok h2
    obtain ⟨resolved, hres, h4⟩ := except_bind_ok h3
    obtain ⟨rest, hrest, h5⟩ := except_map_ok h4
    subst h5
    have ihr := ih (p + 8) rest hrest
    refine ⟨by simp [ihr.1], ?_⟩
    intro i hi cnt raw hc hr
    match i with
    | 0 =>
      simp only [Nat.mul_zero, Nat.add_zero] at hc hr
      rw [hcount] at hc
      cases hc
      unfold pointerRead at hptr
      obtain ⟨v, hv, hmap⟩ := except_map_ok hptr
      rw [hr] at hv
      cases hv
      by_cases hz : raw = 0
      · subst hz
        simp only [if_pos rfl] at hmap
        subst hmap
        cases hres
        simp
      · rw [if_neg hz] at hmap
        subst hmap
        obtain ⟨vp, hvp, h6⟩ := except_bind_ok hres
        obtain ⟨r2, hr2, h7⟩ := except_map_ok h6
        rw [u32add_ok hvp] at hr2
        rw [pointerAddSigned_ok hr2] at h7
        subst h7
        simp only [List.getD_cons_zero, if_neg hz, Nat.mul_zero, Nat.add_zero,
          Prod.mk.injEq, Option.some.injEq]
        exact ⟨by trivial, by omega⟩
    | Nat.succ j =>
      have hidx : p + 8 * (j + 1) = p + 8 + 8 * j := by omega
      have hidx2 : p + 8 * (j + 1) + 4 = p + 8 + 8 * j + 4 := by omega
      rw [hidx] at hc
      rw [hidx2] at hr
      have := ihr.2 j (by omega) cnt raw hc hr
      simp only [List.getD_cons_succ]
      rw [this]
      by_cases hz : raw = 0
      · simp [hz]
      · simp only [if_neg hz, Prod.mk.injEq, Option.some.injEq]
        exact ⟨by trivial, by omega⟩

/-- C3 (amended): CgfxContainer::new resolves every non-zero raw slot
offset to the absolute position offset_field_position + raw_value, where
offset_field_position = 32 + 8 * i is the position of the 4-byte offset
field of slot i itself (the stream position immediately before reading
it), not offset_field_position + 4 + raw_value as claimed; a zero raw
value leaves the slot reference absent. -/
theorem container_slot_offsets_resolved (buf : List Nat) (hdr : CgfxHeader)
    (refs : List (Nat × Option Nat))
    (h : readDictReferences buf = .ok (hdr, refs)) :
    refs.length = 16 ∧
    ∀ i, i < 16 → ∀ cnt raw,
      readU32ChkAt buf (28 + 8 * i) = .ok cnt →
      readU32ChkAt buf (32 + 8 * i) = .ok raw →
      refs.getD i (0, none) =
        (cnt, if raw = 0 then none else some (32 + 8 * i + raw)) := by
  unfold readDictReferences at h
  obtain ⟨hp, hhp, h2⟩ := except_bind_ok h
  obtain ⟨refs2, hloop, h3⟩ := except_map_ok h2
  have hpos : hp.2 = 28 := by
    unfold headerFromBuffer at hhp
    obtain ⟨m0, _, hb1⟩ := except_bind_ok hhp
    obtain ⟨m1, _, hb2⟩ := except_bind_ok hb1
    obtain ⟨m2, _, hb3⟩ := except_bind_ok hb2
    obtain ⟨m3, _, hb4⟩ := except_bind_ok hb3
    split at hb4
    · obtain ⟨bom, _, hb5⟩ := except_bind_ok hb4
      obtain ⟨hl, _, hb6⟩ := except_bind_ok hb5
      obtain ⟨rv, _, hb7⟩ := except_bind_ok hb6
      obtain ⟨fl, _, hb8⟩ := except_bind_ok hb7
      obtain ⟨sc, _, hb9⟩ := except_bind_ok hb8
      obtain ⟨cm, _, hb10⟩ := except_bind_ok hb9
      obtain ⟨cl, _, hb11⟩ := except_bind_ok hb10
      split at hb11
      · cases hb11; rfl
      · cases hb11
    · cases hb4
  rw [hpos] at hloop
  have hrefs2 : refs2 = refs := by
    rw [Prod.mk.injEq] at h3
    exact h3.2
  rw [hrefs2] at hloop
  have hspec := readDictRefsLoop_spec buf 16 28 refs hloop
  refine ⟨hspec.1, ?_⟩
  intro i hi cnt raw hc hr
  have hidx : 28 + 8 * i + 4 = 32 + 8 * i := by omega
  have := hspec.2 i hi cnt raw hc (by rw [hidx]; exact hr)
  rw [this]
  by_cases hz : raw = 0
  · simp [hz]
  · simp only [if_neg hz, Prod.mk.injEq, Option.some.injEq]
    exact ⟨by trivial, by omega⟩

/-- Witness for the amended C3 on the concrete buffer below: slot 0 with
raw offset 16 resolves to 32 + 16 = 48. -/
theorem container_slot_offsets_resolved_witness :
    (exceptGetD (readDictReferences c3DemoBuf) (⟨0, 0, 0, 0, 0, 0, 0⟩, [])).2.getD 0
        (0, none) =
      (0, if (16 : Nat) = 0 then none else some (32 + 8 * 0 + 16)) := by
  have h := container_slot_offsets_resolved c3DemoBuf
    (exceptGetD (readDictReferences c3DemoBuf) (⟨0, 0, 0, 0, 0, 0, 0⟩, [])).1
    (exceptGetD (readDictReferences c3DemoBuf) (⟨0, 0, 0, 0, 0, 0, 0⟩, [])).2 rfl
  exact h.2 0 (by omega) 0 16 rfl rfl

/-- Counterexample to C3 as stated: on the concrete buffer whose slot 0
carries raw offset value 16, the code resolves the dictionary position to
48 = offset_field_position + raw (the offset field of slot 0 sits at byte
32), not to offset_field_position + 4 + raw_value = 52 as the claim
demands; the write side (to_buffer_debug, bcres.rs line 377) patches the
same field with current - (reference_offset + 4), consistently with 48. -/
theorem container_slot_offset_counterexample :
    (readDictReferences c3DemoBuf).map (fun hr => hr.2.getD 0 (0, none)) =
      .ok (0, some 48) ∧ 48 ≠ 32 + 4 + 16 := by
  exact ⟨rfl, by decide⟩

/-- C7: a successful serialization emits exactly file_length bytes; the
final assert of to_buffer_debug (bcres.rs lines 430-433) rejects every
other outcome, so the function either hard-fails or returns a buffer of
the declared length. -/
theorem container_to_buffer_length {μ τ : Type} (texWriter : ValueWriter τ)
    (c : CgfxContainer μ τ) (buf : List Nat)
    (h : containerToBuffer texWriter c = .ok buf) :
    buf.length = c.header.fileLength := by
  unfold containerToBuffer at h
  obtain ⟨o, hbody, h2⟩ := except_bind_ok h
  split at h2
  · cases h2
    assumption
  · cases h2

/-- Witness for C7: a container with no populated slots and declared file
length 256 serializes successfully to 256 bytes. -/
theorem container_to_buffer_length_witness :
    (exceptGetD (containerToBuffer (μ := Unit) unitWriter c7DemoContainer) []).length =
      c7DemoContainer.header.fileLength :=
  container_to_buffer_length unitWriter c7DemoContainer
    (exceptGetD (containerToBuffer (μ := Unit) unitWriter c7DemoContainer) []) rfl

/-- Witness for C8: after adding AB to an empty pool, adding its substring
B changes nothing. -/
theorem write_context_add_string_pooling_witness :
    (WriteContext.new.addString [65, 66]).addString [66] =
      WriteContext.new.addString [65, 66] := by
  have h := write_context_add_string_pooling WriteContext.new [65, 66] [66]
  exact h.2.2.2 ⟨[65], [], rfl⟩

end NwTex
